import Mathlib

/-!
Verification of the drop-table acquisition and loot-simulation engine of
`src/dropSimulator.js` (a Discord chat-bot backend).  The JavaScript source is
shallowly embedded: JS numbers are modelled as exact rationals (`ℚ`) resp.
integers (`ℤ`), the `Math.random()` stream is an explicit oracle `ℕ → ℚ`
consumed in program order, `Math.sqrt` is abstracted as a function parameter of
the optimized simulation (its exact-real semantics `Real.sqrt` is modelled
separately for the jitter-formula analysis), and the regex engine is abstracted:
a `MarkupView` record carries, for each regex of the source, the list of
capture-group tuples that the JS regex engine would produce on the wiki markup.
All branching, accumulation, de-duplication and arithmetic logic downstream of
those matches is translated directly from the source.
-/

set_option maxRecDepth 4000

/-- Inclusive quantity range `{min, max}` as built by `parseQuantity`
(src/dropSimulator.js lines 355-379). -/
structure Quantity where
  min : ℤ
  max : ℤ
deriving DecidableEq, Repr

/-- One drop-line entry (`{item, quantity, rarity, rarityText}`) as pushed by
`parseSection` / `parseMainDropTable` and as hard-coded in the fallback
catalog. -/
structure Drop where
  item : String
  quantity : Quantity
  rarity : ℚ
  rarityText : String
deriving DecidableEq, Repr

/-- The drop-table record assembled by `parseDropTables`
(src/dropSimulator.js lines 152-257).  The dead field `uniqueTableRate`
(initialized to `null` and never read nor written again) is omitted. -/
structure DropTable where
  name : String
  always : List Drop
  main : List Drop
  uniques : List Drop
  tertiary : List Drop
  mainTableRolls : ℤ
  uniqueTableChance : Option ℚ
deriving DecidableEq, Repr

/-- A notable ("unique") drop event `{item, killNumber, rarity}` pushed onto
`uniqueDrops` by the simulation (rarity is the original `rarityText`). -/
structure UniqueDropEvent where
  item : String
  killNumber : ℤ
  rarity : String
deriving DecidableEq, Repr

/-- The JS `loot` object: item name to accumulated quantity, in key-insertion
order. -/
abbrev Loot := List (String × ℤ)

/-- Read of a JS object property defaulted through `|| 0`, matching the read
pattern `loot[item] || 0`. -/
def objGet (o : Loot) (k : String) : ℤ :=
  match o.find? (fun p => p.1 = k) with
  | some p => p.2
  | none => 0

/-- Write of a JS object property: update in place if the key exists (keys
keep their insertion position), else append. -/
def objSet (o : Loot) (k : String) (v : ℤ) : Loot :=
  if o.any (fun p => p.1 = k) then
    o.map (fun p => if p.1 = k then (k, v) else p)
  else o ++ [(k, v)]

/-- The simulation result `{monsterName, killCount, loot, uniqueDrops}`. -/
structure SimulationResult where
  monsterName : String
  killCount : ℕ
  loot : Loot
  uniqueDrops : List UniqueDropEvent
deriving DecidableEq, Repr

/-! ## String primitives (models of the JS string operations used) -/

/-- Decimal digit value of a character (used on chars known to be digits). -/
def digitVal (c : Char) : ℕ := c.toNat - 48

/-- Value of a hexadecimal digit character. -/
def hexDigitVal (c : Char) : ℕ :=
  if c.isDigit then c.toNat - 48
  else if 'a' ≤ c ∧ c ≤ 'f' then c.toNat - 87
  else c.toNat - 55

/-- Hexadecimal digit test, as accepted by JS `parseInt` with a `0x` prefix. -/
def isHexDigit (c : Char) : Bool :=
  c.isDigit || ('a' ≤ c ∧ c ≤ 'f') || ('A' ≤ c ∧ c ≤ 'F')

/-- Numeric value of a decimal digit string. -/
def decVal (l : List Char) : ℕ := l.foldl (fun a c => a * 10 + digitVal c) 0

/-- Numeric value of a hexadecimal digit string. -/
def hexVal (l : List Char) : ℕ := l.foldl (fun a c => a * 16 + hexDigitVal c) 0

/-- Digit-run consumer of JS `parseInt` after sign handling: a `0x`/`0X`
prefix selects base 16, otherwise the longest run of decimal digits;
`none` models `NaN` (no digits found). -/
def jsParseIntCore (sign : ℤ) (l : List Char) : Option ℤ :=
  match l with
  | c₀ :: c₁ :: t =>
      if c₀ = '0' ∧ (c₁ = 'x' ∨ c₁ = 'X') then
        let ds := t.takeWhile isHexDigit
        if ds = [] then none else some (sign * (hexVal ds : ℤ))
      else
        let ds := (c₀ :: c₁ :: t).takeWhile Char.isDigit
        if ds = [] then none else some (sign * (decVal ds : ℤ))
  | _ =>
      let ds := l.takeWhile Char.isDigit
      if ds = [] then none else some (sign * (decVal ds : ℤ))

/-- Model of JS `parseInt(s)` (no radix argument): skip leading whitespace,
then an optional sign, then `jsParseIntCore`. -/
def jsParseIntL (l : List Char) : Option ℤ :=
  match l.dropWhile Char.isWhitespace with
  | [] => jsParseIntCore 1 []
  | c :: t =>
      if c = '-' then jsParseIntCore (-1) t
      else if c = '+' then jsParseIntCore 1 t
      else jsParseIntCore 1 (c :: t)

/-- `parseInt` on a `String`. -/
def jsParseInt (s : String) : Option ℤ := jsParseIntL s.toList

/-- Model of the JS idiom `parseInt(x) || 1`: `NaN` and `0` both fall through
to the default `1`. -/
def jsOrOne (o : Option ℤ) : ℤ :=
  match o with
  | some v => if v = 0 then 1 else v
  | none => 1

/-- Model of the JS idiom `parseInt(x) || d` for an integer default `d`. -/
def jsOrDefault (o : Option ℤ) (d : ℤ) : ℤ :=
  match o with
  | some v => if v = 0 then d else v
  | none => d

/-- Model of JS `String.prototype.trim` on char lists (both ends). -/
def jsTrimL (l : List Char) : List Char :=
  ((l.dropWhile Char.isWhitespace).reverse.dropWhile Char.isWhitespace).reverse

/-- `trim` on a `String`. -/
def jsTrim (s : String) : String := String.mk (jsTrimL s.toList)

/-- Model of JS `String.prototype.split(sep)` for a one-character separator:
the list of (possibly empty) chunks between occurrences of `sep`. -/
def splitOnChar (sep : Char) : List Char → List (List Char)
  | [] => [[]]
  | c :: t =>
      let r := splitOnChar sep t
      if c = sep then [] :: r
      else
        match r with
        | h :: t' => (c :: h) :: t'
        | [] => [[c]]

/-- Model of JS `String.prototype.includes(pat)` restricted to what the source
uses; `p` is matched as a contiguous substring. -/
def startsWithL : List Char → List Char → Bool
  | [], _ => true
  | _ :: _, [] => false
  | p :: ps, c :: cs => p = c && startsWithL ps cs

/-- Substring containment on char lists. -/
def containsSubL (l : List Char) (p : List Char) : Bool :=
  startsWithL p l ||
    match l with
    | [] => false
    | _ :: t => containsSubL t p

/-- `includes` on `String`s. -/
def jsIncludes (s pat : String) : Bool := containsSubL s.toList pat.toList

/-- Model of JS `String.prototype.toLowerCase` (ASCII range, which is all the
source relies on). -/
def jsLower (s : String) : String := String.mk (s.toList.map Char.toLower)

/-! ## parseQuantity (src/dropSimulator.js lines 355-379) -/

/-- Scanner for one replacement step of the regex `/\s*\([^)]+\)/`: given the
characters after an opening parenthesis, return the (possibly empty) body up to
the first `)` together with the remainder after it, or `none` when no `)`
follows. -/
def breakAtClose : List Char → Option (List Char × List Char)
  | [] => none
  | c :: r =>
      if c = ')' then some ([], r)
      else (breakAtClose r).map (fun p => (c :: p.1, p.2))

theorem breakAtClose_length {l b rest : List Char}
    (h : breakAtClose l = some (b, rest)) : rest.length < l.length := by
  induction l generalizing b rest with
  | nil => simp [breakAtClose] at h
  | cons c t ih =>
    by_cases hc : c = ')'
    · rw [breakAtClose, if_pos hc] at h
      simp only [Option.some.injEq, Prod.mk.injEq] at h
      rw [← h.2]
      simp
    · rw [breakAtClose, if_neg hc] at h
      rcases Option.map_eq_some'.mp h with ⟨⟨b', rest'⟩, hb, heq⟩
      simp only [Prod.mk.injEq] at heq
      rw [← heq.2]
      have := ih hb
      simp only [List.length_cons]
      omega

/-- Attempt of the regex `/\s*\([^)]+\)/` anchored at the current position:
greedy whitespace, `(`, a non-empty run of non-`)` characters, `)`.  On success
return the remainder of the input after the match. -/
def parenMatchAt (l : List Char) : Option (List Char) :=
  match l.dropWhile Char.isWhitespace with
  | '(' :: r =>
      match breakAtClose r with
      | some (body, after) => if body = [] then none else some after
      | none => none
  | _ => none

theorem dropWhile_len_le {α} (p : α → Bool) (l : List α) :
    (l.dropWhile p).length ≤ l.length := by
  induction l with
  | nil => simp
  | cons c t ih =>
    by_cases h : p c
    · rw [List.dropWhile_cons, if_pos h]
      exact Nat.le_succ_of_le ih
    · rw [List.dropWhile_cons, if_neg h]

theorem parenMatchAt_length {l after : List Char}
    (h : parenMatchAt l = some after) : after.length < l.length := by
  have hdw := dropWhile_len_le Char.isWhitespace l
  rw [parenMatchAt] at h
  split at h
  case _ r heq =>
    split at h
    case _ body after₀ hb =>
      split at h
      · exact absurd h (by simp)
      · simp only [Option.some.injEq] at h
        subst h
        have h1 := breakAtClose_length hb
        rw [heq] at hdw
        simp only [List.length_cons] at hdw
        omega
    case _ => exact absurd h (by simp)
  case _ => exact absurd h (by simp)

/-- Fuel-indexed scanner for the global replacement: at each position, delete
the anchored match if there is one (continuing after it), else keep one
character.  Recursion is structural on the fuel; by `parenMatchAt_length`
every step strictly shrinks the remaining input, so fuel equal to the input
length (as supplied by `stripParens`) is never exhausted. -/
def stripParensGo : ℕ → List Char → List Char
  | 0, l => l
  | _ + 1, [] => []
  | fuel + 1, c :: t =>
      match parenMatchAt (c :: t) with
      | some after => stripParensGo fuel after
      | none => c :: stripParensGo fuel t

/-- Model of `quantityStr.replace(/\s*\([^)]+\)/g, '')`: repeatedly delete the
leftmost match of "optional whitespace, parenthesized non-empty annotation". -/
def stripParens (l : List Char) : List Char := stripParensGo l.length l

/-- Branching of `parseQuantity` on the cleaned (stripped and trimmed) text:
the `lo-hi` range form, else a bare number defaulted through `|| 1`. -/
def parseQuantityCleaned (cleaned : List Char) : Quantity :=
  if cleaned = [] then ⟨1, 1⟩
  else if '-' ∈ cleaned then
    match splitOnChar '-' cleaned with
    | p₀ :: p₁ :: _ =>
        ⟨min (jsOrOne (jsParseIntL p₀))
            (jsOrDefault (jsParseIntL p₁) (jsOrOne (jsParseIntL p₀))),
          max (jsOrOne (jsParseIntL p₀))
            (jsOrDefault (jsParseIntL p₁) (jsOrOne (jsParseIntL p₀)))⟩
    | _ => ⟨jsOrOne (jsParseIntL cleaned), jsOrOne (jsParseIntL cleaned)⟩
  else ⟨jsOrOne (jsParseIntL cleaned), jsOrOne (jsParseIntL cleaned)⟩

/-- Model of `parseQuantity` working on char lists; see `parseQuantity`. -/
def parseQuantityL (l : List Char) : Quantity :=
  if l = [] then ⟨1, 1⟩ else parseQuantityCleaned (jsTrimL (stripParens l))

/-- Model of `parseQuantity` (src/dropSimulator.js lines 355-379): strip
parenthetical notes, trim, then either a `lo-hi` range (components defaulted
through `|| 1` resp. `|| min`, result normalized with `Math.min`/`Math.max`) or
a bare number defaulted through `|| 1`; empty input yields `{1,1}`. -/
def parseQuantity (s : String) : Quantity := parseQuantityL s.toList

/-! ## parseRarity (src/dropSimulator.js lines 381-421) -/

/-- Model of the `rarityMap` text-bucket lookup defaulted through `|| 128`. -/
def textRarity (cleaned : List Char) : ℚ :=
  let lower := cleaned.map Char.toLower
  if lower = "always".toList then 1
  else if lower = "common".toList then 8
  else if lower = "uncommon".toList then 32
  else if lower = "rare".toList then 128
  else if lower = "very rare".toList then 512
  else if lower = "very_rare".toList then 512
  else 128

/-- The fraction branch of `parseRarity`: a cleaned string containing `/`,
whose two `parseInt`ed parts (defaulted through `|| 1`) are both positive,
yields `denominator / numerator`. -/
def parseRarityFrac (cleaned : List Char) : Option ℚ :=
  if '/' ∈ cleaned then
    match splitOnChar '/' cleaned with
    | p₀ :: p₁ :: _ =>
        if 0 < jsOrOne (jsParseIntL p₁) ∧ 0 < jsOrOne (jsParseIntL p₀) then
          some ((jsOrOne (jsParseIntL p₁) : ℚ) / (jsOrOne (jsParseIntL p₀) : ℚ))
        else none
    | _ => none
  else none

/-- Model of `parseRarity` on a trimmed char list: fraction branch, then
pure-number branch, then text buckets. -/
def parseRarityCleaned (cleaned : List Char) : ℚ :=
  match parseRarityFrac cleaned with
  | some r => r
  | none =>
      match jsParseIntL cleaned with
      | some v => if 0 < v then (v : ℚ) else textRarity cleaned
      | none => textRarity cleaned

/-- Model of `parseRarity` working on char lists. -/
def parseRarityL (l : List Char) : ℚ :=
  if l = [] then 128 else parseRarityCleaned (jsTrimL l)

/-- Model of `parseRarity` (src/dropSimulator.js lines 381-421): a fraction
`numerator/denominator` yields `denominator/numerator`, a positive numeric
string yields its value, a known text bucket yields its mapped value, and
everything else (including the empty string) yields the default `128`. -/
def parseRarity (s : String) : ℚ := parseRarityL s.toList

/-! ## Drop-table cache (src/dropSimulator.js lines 1-45, 112-135)

The JS `Map` is modelled as an association list in insertion order: `set` of an
existing key updates it in place, `set` of a new key appends, `delete` removes.
The clock is an explicit `now : ℕ` (milliseconds), standing for `Date.now()`.
-/

/-- A cache entry `{data, timestamp}`. -/
structure CacheEntry where
  data : DropTable
  timestamp : ℕ
deriving DecidableEq, Repr

/-- The `dropCache` map, in `Map` iteration (insertion) order. -/
abbrev DropCache := List (String × CacheEntry)

/-- `MAX_CACHE_SIZE = 100; // Maximum number of cached entries`. -/
def MAX_CACHE_SIZE : ℕ := 100

/-- `CACHE_DURATION = 60 * 60 * 1000` (one hour in milliseconds). -/
def CACHE_DURATION : ℕ := 60 * 60 * 1000

/-- JS `Map.prototype.set`: update in place if the key exists, else append. -/
def mapSet (c : DropCache) (k : String) (v : CacheEntry) : DropCache :=
  if c.any (fun p => p.1 = k) then
    c.map (fun p => if p.1 = k then (k, v) else p)
  else c ++ [(k, v)]

/-- JS `Map.prototype.delete`. -/
def mapDelete (c : DropCache) (k : String) : DropCache :=
  c.filter (fun p => p.1 ≠ k)

/-- JS `Map.prototype.get`. -/
def mapGet (c : DropCache) (k : String) : Option CacheEntry :=
  (c.find? (fun p => p.1 = k)).map (fun p => p.2)

/-- Model of `evictLRUEntry` (src/dropSimulator.js lines 29-45): scan all
entries for the one with the smallest timestamp **strictly below**
`Date.now()` (the scan's initial value), then delete it.  The JS guard
`if (oldestKey)` is string truthiness, so an empty-string key is never
deleted. -/
def evictLRUEntry (c : DropCache) (now : ℕ) : DropCache :=
  let scan := c.foldl
    (fun (acc : Option String × ℕ) p =>
      if p.2.timestamp < acc.2 then (some p.1, p.2.timestamp) else acc)
    (none, now)
  match scan.1 with
  | some k => if k = "" then c else mapDelete c k
  | none => c

/-- Model of the cache-insertion idiom of `simulateKills`
(src/dropSimulator.js lines 127-135 and 112-120): evict when at capacity, then
`set` the entry with the current timestamp. -/
def cachePut (c : DropCache) (now : ℕ) (k : String) (d : DropTable) : DropCache :=
  let c₁ := if MAX_CACHE_SIZE ≤ c.length then evictLRUEntry c now else c
  mapSet c₁ k ⟨d, now⟩

/-! ## Weighted selection (src/dropSimulator.js lines 631-669) -/

/-- The random-draw oracle: `rng n` is the value of the `n`-th call to
`Math.random()`, consumed in program order. -/
abbrev Rng := ℕ → ℚ

/-- Weight derivation shared by `selectWeightedDrop` (lines 636-650) and the
optimized main-table approximation (lines 526-534): a fractional `rarityText`
contributes its numerator (defaulted through `|| 1`), otherwise `1000 / rarity`. -/
def dropWeight (d : Drop) : ℚ :=
  if '/' ∈ d.rarityText.toList then
    (jsOrOne (jsParseIntL ((splitOnChar '/' d.rarityText.toList).headD [])) : ℚ)
  else 1000 / d.rarity

/-- The cumulative-weight linear scan of `selectWeightedDrop`: subtract each
candidate's weight in sequence order, returning the first candidate at which
the remainder drops to `≤ 0`. -/
def selectScan : List (Drop × ℚ) → ℚ → Option Drop
  | [], _ => none
  | (d, w) :: rest, r => if r - w ≤ 0 then some d else selectScan rest (r - w)

/-- Model of `selectWeightedDrop` (src/dropSimulator.js lines 631-669).
Returns the selected drop together with the next rng cursor.  Paths: empty
list → `null`; singleton → its element (no draw); zero total weight →
`drops[0]` (no draw); otherwise one uniform draw scaled by the total weight,
the linear scan, and `drops[drops.length - 1]` as the final safety fallback. -/
def selectWeightedDrop (drops : List Drop) (rng : Rng) (k : ℕ) :
    Option Drop × ℕ :=
  match drops with
  | [] => (none, k)
  | [d] => (some d, k)
  | d₀ :: d₁ :: rest =>
      let dws := (d₀ :: d₁ :: rest).map (fun d => (d, dropWeight d))
      let totalWeight := (dws.map (fun p => p.2)).sum
      if totalWeight = 0 then (some d₀, k)
      else
        match selectScan dws (rng k * totalWeight) with
        | some d => (some d, k + 1)
        | none => (some ((d₀ :: d₁ :: rest).getLast (by simp)), k + 1)

/-! ## Exact per-kill simulation (src/dropSimulator.js lines 423-508) -/

/-- Model of `getRandomQuantity` (lines 620-625): a degenerate range returns
`min` without consuming a draw; otherwise one uniform draw is floored over the
range width.  Returns the value and the next rng cursor. -/
def getRandomQuantity (q : Quantity) (rng : Rng) (k : ℕ) : ℤ × ℕ :=
  if q.min = q.max then (q.min, k)
  else (⌊rng k * ((q.max : ℚ) - (q.min : ℚ) + 1)⌋ + q.min, k + 1)

/-- Model of `addToLoot` (lines 627-629): `loot[item] = (loot[item] || 0) + quantity`. -/
def addToLoot (loot : Loot) (item : String) (qty : ℤ) : Loot :=
  objSet loot item (objGet loot item + qty)

/-- Mutable state threaded through a simulation: the loot object, the
`uniqueDrops` array (pushes append on the right), and the rng cursor. -/
structure SimState where
  loot : Loot
  uniqueDrops : List UniqueDropEvent
  k : ℕ
deriving DecidableEq, Repr

/-- One iteration of the `always` forEach (lines 438-441). -/
def alwaysStep (rng : Rng) (st : SimState) (d : Drop) : SimState :=
  let p := getRandomQuantity d.quantity rng st.k
  ⟨addToLoot st.loot d.item p.1, st.uniqueDrops, p.2⟩

/-- The exact-mode `always` phase. -/
def alwaysPhase (rng : Rng) (always : List Drop) (st : SimState) : SimState :=
  always.foldl (alwaysStep rng) st

/-- `dropData.mainTableRolls || 1`. -/
def jsRollCount (n : ℤ) : ℤ := if n = 0 then 1 else n

/-- One main-table roll (lines 445-452): a weighted selection followed, when a
drop was selected, by a quantity draw. -/
def mainRollStep (rng : Rng) (main : List Drop) (st : SimState) : SimState :=
  let s := selectWeightedDrop main rng st.k
  match s.1 with
  | some d =>
      let p := getRandomQuantity d.quantity rng s.2
      ⟨addToLoot st.loot d.item p.1, st.uniqueDrops, p.2⟩
  | none => ⟨st.loot, st.uniqueDrops, s.2⟩

/-- The exact-mode main phase: `mainTableRolls || 1` independent rolls. -/
def mainPhase (rng : Rng) (t : DropTable) (st : SimState) : SimState :=
  (List.range (jsRollCount t.mainTableRolls).toNat).foldl
    (fun s _ => mainRollStep rng t.main s) st

/-- Shared-chance unique handling (lines 456-468, also reused verbatim by the
optimized mode at lines 554-567): one Bernoulli trial at `uniqueTableChance`,
then a uniform index into `uniques`; an out-of-range index (`undefined` in JS)
is skipped by the `if (uniqueDrop)` guard. -/
def sharedUniqueTrial (rng : Rng) (uniques : List Drop) (chance : ℚ)
    (killNumber : ℤ) (st : SimState) : SimState :=
  let u := rng st.k
  if u < chance then
    let idx : ℤ := ⌊rng (st.k + 1) * (uniques.length : ℚ)⌋
    match (if 0 ≤ idx then uniques.get? idx.toNat else none) with
    | some ud =>
        let p := getRandomQuantity ud.quantity rng (st.k + 2)
        ⟨addToLoot st.loot ud.item p.1,
          st.uniqueDrops ++ [⟨ud.item, killNumber, ud.rarityText⟩], p.2⟩
    | none => ⟨st.loot, st.uniqueDrops, st.k + 2⟩
  else ⟨st.loot, st.uniqueDrops, st.k + 1⟩

/-- One per-item independent unique trial (lines 471-481). -/
def indivUniqueStep (rng : Rng) (killNumber : ℤ) (st : SimState) (ud : Drop) :
    SimState :=
  let u := rng st.k
  if u < 1 / ud.rarity then
    let p := getRandomQuantity ud.quantity rng (st.k + 1)
    ⟨addToLoot st.loot ud.item p.1,
      st.uniqueDrops ++ [⟨ud.item, killNumber, ud.rarityText⟩], p.2⟩
  else ⟨st.loot, st.uniqueDrops, st.k + 1⟩

/-- The per-item independent unique phase. -/
def indivUniquesPhase (rng : Rng) (uniques : List Drop) (killNumber : ℤ)
    (st : SimState) : SimState :=
  uniques.foldl (indivUniqueStep rng killNumber) st

/-- The exact-mode unique phase (lines 455-482): the JS truthiness test
`dropData.uniqueTableChance && dropData.uniques.length > 0` selects between
the shared-chance trial and the per-item trials. -/
def uniquesPhase (rng : Rng) (t : DropTable) (killNumber : ℤ) (st : SimState) :
    SimState :=
  match t.uniqueTableChance with
  | some c =>
      if c ≠ 0 ∧ t.uniques ≠ [] then sharedUniqueTrial rng t.uniques c killNumber st
      else indivUniquesPhase rng t.uniques killNumber st
  | none => indivUniquesPhase rng t.uniques killNumber st

/-- One tertiary trial (lines 485-499): independent Bernoulli at `1/rarity`;
successes with `rarity ≥ 1000` are additionally recorded as notable events. -/
def tertiaryStep (rng : Rng) (killNumber : ℤ) (st : SimState) (d : Drop) :
    SimState :=
  let u := rng st.k
  if u < 1 / d.rarity then
    let p := getRandomQuantity d.quantity rng (st.k + 1)
    let ev := if (1000 : ℚ) ≤ d.rarity then [⟨d.item, killNumber, d.rarityText⟩] else []
    ⟨addToLoot st.loot d.item p.1, st.uniqueDrops ++ ev, p.2⟩
  else ⟨st.loot, st.uniqueDrops, st.k + 1⟩

/-- The exact-mode tertiary phase. -/
def tertiaryPhase (rng : Rng) (tert : List Drop) (killNumber : ℤ)
    (st : SimState) : SimState :=
  tert.foldl (tertiaryStep rng killNumber) st

/-- One full kill of the exact per-kill loop (lines 434-500). -/
def simulateOneKill (rng : Rng) (t : DropTable) (killNumber : ℤ)
    (st : SimState) : SimState :=
  tertiaryPhase rng t.tertiary killNumber
    (uniquesPhase rng t killNumber
      (mainPhase rng t
        (alwaysPhase rng t.always st)))

/-- The exact per-kill simulation: iterate kills `1..killCount` over an empty
initial state. -/
def runExactSimulation (t : DropTable) (killCount : ℕ) (rng : Rng) :
    SimulationResult :=
  let st := (List.range killCount).foldl
    (fun s i => simulateOneKill rng t ((i + 1 : ℕ) : ℤ) s) ⟨[], [], 0⟩
  ⟨t.name, killCount, st.loot, st.uniqueDrops⟩

/-! ## Statistically approximated simulation (src/dropSimulator.js lines 510-618)

`Math.sqrt` is abstracted as a function parameter `sqrtF : ℚ → ℚ`; the
exact-real semantics of the jitter expression is modelled by `jitterArg` /
`jitterCount` further below.
-/

/-- JS `Math.round`: half-up rounding, `⌊x + 1/2⌋`. -/
def jsRound (x : ℚ) : ℤ := ⌊x + 1 / 2⌋

/-- `(drop.quantity.min + drop.quantity.max) / 2`. -/
def avgQuantity (q : Quantity) : ℚ := ((q.min : ℚ) + (q.max : ℚ)) / 2

/-- The optimized `always` phase (lines 514-518): each always drop contributes
`Math.round(avgQuantity * killCount)`, with no randomness. -/
def optAlwaysPhase (always : List Drop) (killCount : ℕ) (st : SimState) :
    SimState :=
  ⟨always.foldl
      (fun loot d => addToLoot loot d.item (jsRound (avgQuantity d.quantity * (killCount : ℚ))))
      st.loot,
    st.uniqueDrops, st.k⟩

/-- One item of the optimized main-table approximation (lines 539-549). -/
def optMainStep (sqrtF : ℚ → ℚ) (rng : Rng) (totalMainRolls totalWeight : ℚ)
    (st : SimState) (dw : Drop × ℚ) : SimState :=
  let expectedDrops := totalMainRolls * (dw.2 / totalWeight)
  let actualDrops := jsRound (expectedDrops + (rng st.k - 1 / 2) * sqrtF expectedDrops)
  if 0 < actualDrops then
    ⟨addToLoot st.loot dw.1.item (jsRound ((actualDrops : ℚ) * avgQuantity dw.1.quantity)),
      st.uniqueDrops, st.k + 1⟩
  else ⟨st.loot, st.uniqueDrops, st.k + 1⟩

/-- The optimized main phase (lines 521-550). -/
def optMainPhase (sqrtF : ℚ → ℚ) (rng : Rng) (t : DropTable) (killCount : ℕ)
    (st : SimState) : SimState :=
  let totalMainRolls : ℚ := (killCount : ℚ) * ((jsRollCount t.mainTableRolls : ℤ) : ℚ)
  if t.main ≠ [] then
    let dws := t.main.map (fun d => (d, dropWeight d))
    let totalWeight := (dws.map (fun p => p.2)).sum
    dws.foldl (optMainStep sqrtF rng totalMainRolls totalWeight) st
  else st

/-- The optimized shared-chance unique phase (lines 553-567): still an
explicit per-kill Bernoulli loop, with the same body as the exact mode. -/
def optSharedUniquesPhase (rng : Rng) (uniques : List Drop) (chance : ℚ)
    (killCount : ℕ) (st : SimState) : SimState :=
  (List.range killCount).foldl
    (fun s i => sharedUniqueTrial rng uniques chance ((i + 1 : ℕ) : ℤ) s) st

/-- Inner loop of the optimized per-item unique phase (lines 574-584): one
quantity draw, then a uniformly random placeholder kill number. -/
def optIndivUniqueEmit (rng : Rng) (ud : Drop) (killCount : ℕ)
    (st : SimState) : SimState :=
  let p := getRandomQuantity ud.quantity rng st.k
  let killNumber : ℤ := ⌊rng p.2 * (killCount : ℚ)⌋ + 1
  ⟨addToLoot st.loot ud.item p.1,
    st.uniqueDrops ++ [⟨ud.item, killNumber, ud.rarityText⟩], p.2 + 1⟩

/-- One item of the optimized per-item unique phase (lines 570-585): the
expected count is jittered, then that many unit occurrences are emitted. -/
def optIndivUniqueStep (sqrtF : ℚ → ℚ) (rng : Rng) (killCount : ℕ)
    (st : SimState) (ud : Drop) : SimState :=
  let expectedDrops := (killCount : ℚ) / ud.rarity
  let actualDrops := jsRound (expectedDrops + (rng st.k - 1 / 2) * sqrtF expectedDrops)
  (List.range actualDrops.toNat).foldl
    (fun s _ => optIndivUniqueEmit rng ud killCount s)
    ⟨st.loot, st.uniqueDrops, st.k + 1⟩

/-- The optimized per-item unique phase. -/
def optIndivUniquesPhase (sqrtF : ℚ → ℚ) (rng : Rng) (uniques : List Drop)
    (killCount : ℕ) (st : SimState) : SimState :=
  uniques.foldl (optIndivUniqueStep sqrtF rng killCount) st

/-- One item of the optimized tertiary phase (lines 589-610). -/
def optTertiaryStep (sqrtF : ℚ → ℚ) (rng : Rng) (killCount : ℕ)
    (st : SimState) (d : Drop) : SimState :=
  let expectedDrops := (killCount : ℚ) / d.rarity
  let actualDrops := jsRound (expectedDrops + (rng st.k - 1 / 2) * sqrtF expectedDrops)
  if 0 < actualDrops then
    let loot' := addToLoot st.loot d.item (jsRound ((actualDrops : ℚ) * avgQuantity d.quantity))
    if (1000 : ℚ) ≤ d.rarity then
      (List.range actualDrops.toNat).foldl
        (fun s _ =>
          ⟨s.loot, s.uniqueDrops ++ [⟨d.item, ⌊rng s.k * (killCount : ℚ)⌋ + 1, d.rarityText⟩],
            s.k + 1⟩)
        ⟨loot', st.uniqueDrops, st.k + 1⟩
    else ⟨loot', st.uniqueDrops, st.k + 1⟩
  else ⟨st.loot, st.uniqueDrops, st.k + 1⟩

/-- The optimized tertiary phase. -/
def optTertiaryPhase (sqrtF : ℚ → ℚ) (rng : Rng) (tert : List Drop)
    (killCount : ℕ) (st : SimState) : SimState :=
  tert.foldl (optTertiaryStep sqrtF rng killCount) st

/-- The optimized unique phase (lines 552-586): the same truthiness dispatch
as the exact mode, between the explicit per-kill shared-chance loop and the
jittered per-item emission. -/
def optUniquesPhase (sqrtF : ℚ → ℚ) (rng : Rng) (t : DropTable)
    (killCount : ℕ) (st : SimState) : SimState :=
  match t.uniqueTableChance with
  | some c =>
      if c ≠ 0 ∧ t.uniques ≠ [] then
        optSharedUniquesPhase rng t.uniques c killCount st
      else optIndivUniquesPhase sqrtF rng t.uniques killCount st
  | none => optIndivUniquesPhase sqrtF rng t.uniques killCount st

/-- The state after all four optimized phases, run in program order over the
empty initial state. -/
def optFinalState (sqrtF : ℚ → ℚ) (rng : Rng) (t : DropTable)
    (killCount : ℕ) : SimState :=
  optTertiaryPhase sqrtF rng t.tertiary killCount
    (optUniquesPhase sqrtF rng t killCount
      (optMainPhase sqrtF rng t killCount
        (optAlwaysPhase t.always killCount ⟨[], [], 0⟩)))

/-- Model of `runOptimizedSimulation` (src/dropSimulator.js lines 510-618). -/
def runOptimizedSimulation (sqrtF : ℚ → ℚ) (t : DropTable) (killCount : ℕ)
    (rng : Rng) : SimulationResult :=
  ⟨t.name, killCount, (optFinalState sqrtF rng t killCount).loot,
    (optFinalState sqrtF rng t killCount).uniqueDrops⟩

/-- Model of `runSimulation` (src/dropSimulator.js lines 423-508): the
dispatcher between the exact per-kill loop (`killCount ≤ 1000`) and the
statistical approximation (`killCount > 1000`). -/
def runSimulation (sqrtF : ℚ → ℚ) (t : DropTable) (killCount : ℕ) (rng : Rng) :
    SimulationResult :=
  if 1000 < killCount then runOptimizedSimulation sqrtF t killCount rng
  else runExactSimulation t killCount rng

/-! ## Exact-real model of the jitter formula (lines 542, 572, 591) -/

/-- The argument of `Math.round` in the jitter formula
`expected + (Math.random() - 0.5) * Math.sqrt(expected)`, with `Math.sqrt`
given its exact-real semantics. -/
noncomputable def jitterArg (expected u : ℝ) : ℝ :=
  expected + (u - 1 / 2) * Real.sqrt expected

/-- The jittered occurrence count `Math.round(jitterArg)`. -/
noncomputable def jitterCount (expected u : ℝ) : ℤ :=
  ⌊jitterArg expected u + 1 / 2⌋

/-! ## Markup parsing (src/dropSimulator.js lines 152-353)

The regex engine is abstracted away: a `SectionView` holds the capture-group
triples `(name, quantity, rarity)` that the primary `DropsLine` pattern and
the three alternative line patterns produce on a section's content, and a
`MarkupView` additionally holds the document-wide matches and the two
mechanic-override captures.  The ordered fallback among section-heading
regexes only selects which content string reaches `parseSection`, so it is
absorbed into the `Option SectionView`.  Everything after the matches — the
push/skip/filter/de-duplication logic — is translated directly.
-/

/-- A capture-group triple of one drop-line match. -/
abbrev LineMatch := String × String × String

/-- The matches produced on one section's content. -/
structure SectionView where
  primaryMatches : List LineMatch
  altMatches : List (List LineMatch)
deriving Repr

/-- The matches and captures produced on the whole wiki document. -/
structure MarkupView where
  alwaysSec : Option SectionView
  uniquesSec : Option SectionView
  tertiarySec : Option SectionView
  uniqueRateCapture : Option String
  mainRollsCapture : Option String
  docPrimaryMatches : List LineMatch
  docAltMatches : List (List LineMatch)
deriving Repr

/-- A drop pushed from a primary-pattern match (lines 267-276): the item name
is used as captured, untrimmed. -/
def primaryDrop (m : LineMatch) : Drop :=
  ⟨m.1, parseQuantity m.2.1, parseRarity m.2.2, m.2.2⟩

/-- A drop pushed from an alternative-pattern match (lines 296-308), guarded by
`itemName && itemName.trim() && !itemName.includes('=')`; the item name is
trimmed and an empty rarity capture falls back to `'Unknown'`. -/
def altDrop (m : LineMatch) : Option Drop :=
  if m.1 ≠ "" ∧ jsTrim m.1 ≠ "" ∧ '=' ∉ m.1.toList then
    some ⟨jsTrim m.1, parseQuantity m.2.1, parseRarity m.2.2,
      if m.2.2 = "" then "Unknown" else m.2.2⟩
  else none

/-- Model of `tryAlternativeParsing` (lines 284-312): each alternative pattern
appends all its (guard-passing) matches; the cascade stops after the first
pattern that leaves the target array non-empty. -/
def tryAlternativeParsing (alts : List (List LineMatch)) (acc : List Drop) :
    List Drop :=
  match alts with
  | [] => acc
  | ms :: rest =>
      let acc₂ := acc ++ ms.filterMap altDrop
      if 0 < acc₂.length then acc₂ else tryAlternativeParsing rest acc₂

/-- Model of `parseSection` (lines 259-282): primary-pattern matches are pushed
unconditionally; if that yields zero items, the alternative cascade runs. -/
def parseSection (s : SectionView) : List Drop :=
  let primary := s.primaryMatches.map primaryDrop
  if primary.length = 0 then tryAlternativeParsing s.altMatches [] else primary

/-- Drops of an optional section (an unmatched section leaves its sequence
empty). -/
def sectionDrops : Option SectionView → List Drop
  | some s => parseSection s
  | none => []

/-- The skip test of `parseMainDropTable` (lines 324-327 and 347-351): is the
item name already present in `always`, `uniques` or `tertiary`? -/
def mainSkip (always uniques tertiary : List Drop) (n : String) : Bool :=
  always.any (fun d => d.item = n) || uniques.any (fun d => d.item = n) ||
    tertiary.any (fun d => d.item = n)

/-- Model of `parseMainDropTable` (lines 314-353): primary document-wide
matches are pushed unless already claimed by another section; if zero were
pushed, the alternative cascade runs and its output is filtered against the
other sections. -/
def parseMainDropTable (docPrimary : List LineMatch)
    (docAlts : List (List LineMatch)) (always uniques tertiary : List Drop) :
    List Drop :=
  let primary := docPrimary.foldl
    (fun acc m => if mainSkip always uniques tertiary m.1 then acc
      else acc ++ [primaryDrop m]) []
  if primary.length = 0 then
    (tryAlternativeParsing docAlts []).filter
      (fun d => !mainSkip always uniques tertiary d.item)
  else primary

/-- The `uniqueTableChance` extraction (lines 217-229): a captured rate string
containing `/` with both `parseInt`ed parts positive sets the chance. -/
def parseUniqueChance (capture : Option String) : Option ℚ :=
  match capture with
  | some rateStr =>
      if rateStr ≠ "" ∧ '/' ∈ rateStr.toList then
        match splitOnChar '/' rateStr.toList with
        | p₀ :: p₁ :: _ =>
            match jsParseIntL p₀, jsParseIntL p₁ with
            | some num, some denom =>
                if 0 < num ∧ 0 < denom then some ((num : ℚ) / (denom : ℚ))
                else none
            | _, _ => none
        | _ => none
      else none
  | none => none

/-- Model of `getCerberusHardcodedDrops` (src/dropSimulator.js lines 707-765). -/
def getCerberusHardcodedDrops : DropTable :=
  { name := "Cerberus"
    mainTableRolls := 2
    uniqueTableChance := some (1 / 130)
    always := [⟨"Infernal ashes", ⟨1, 1⟩, 1, "Always"⟩]
    uniques := [
      ⟨"Primordial crystal", ⟨1, 1⟩, 520, "1/520"⟩,
      ⟨"Pegasian crystal", ⟨1, 1⟩, 520, "1/520"⟩,
      ⟨"Eternal crystal", ⟨1, 1⟩, 520, "1/520"⟩,
      ⟨"Smouldering stone", ⟨1, 1⟩, 520, "1/520"⟩]
    main := [
      ⟨"Rune platebody", ⟨1, 1⟩, 26, "5/130"⟩,
      ⟨"Rune chainbody", ⟨1, 1⟩, 32.5, "4/130"⟩,
      ⟨"Rune 2h sword", ⟨1, 1⟩, 32.5, "4/130"⟩,
      ⟨"Black d\x27hide body", ⟨1, 1⟩, 43.33, "3/130"⟩,
      ⟨"Rune axe", ⟨1, 1⟩, 43.33, "3/130"⟩,
      ⟨"Rune pickaxe", ⟨1, 1⟩, 43.33, "3/130"⟩,
      ⟨"Battlestaff", ⟨6, 6⟩, 43.33, "3/130"⟩,
      ⟨"Rune full helm", ⟨1, 1⟩, 43.33, "3/130"⟩,
      ⟨"Lava battlestaff", ⟨1, 1⟩, 65, "2/130"⟩,
      ⟨"Rune halberd", ⟨1, 1⟩, 65, "2/130"⟩,
      ⟨"Fire rune", ⟨300, 300⟩, 21.67, "6/130"⟩,
      ⟨"Soul rune", ⟨100, 100⟩, 21.67, "6/130"⟩,
      ⟨"Pure essence", ⟨300, 300⟩, 26, "5/130"⟩,
      ⟨"Blood rune", ⟨60, 60⟩, 32.5, "4/130"⟩,
      ⟨"Cannonball", ⟨50, 50⟩, 32.5, "4/130"⟩,
      ⟨"Runite bolts (unf)", ⟨40, 40⟩, 32.5, "4/130"⟩,
      ⟨"Death rune", ⟨100, 100⟩, 43.33, "3/130"⟩,
      ⟨"Coal", ⟨120, 120⟩, 21.67, "6/130"⟩,
      ⟨"Super restore(4)", ⟨2, 2⟩, 21.67, "6/130"⟩,
      ⟨"Summer pie", ⟨3, 3⟩, 21.67, "6/130"⟩,
      ⟨"Coins", ⟨10000, 20000⟩, 26, "5/130"⟩,
      ⟨"Dragon bones", ⟨20, 20⟩, 26, "5/130"⟩,
      ⟨"Unholy symbol", ⟨1, 1⟩, 26, "5/130"⟩,
      ⟨"Wine of zamorak", ⟨15, 15⟩, 26, "5/130"⟩,
      ⟨"Ashes", ⟨50, 50⟩, 32.5, "4/130"⟩,
      ⟨"Fire orb", ⟨20, 20⟩, 32.5, "4/130"⟩,
      ⟨"Grimy torstol", ⟨6, 6⟩, 32.5, "4/130"⟩,
      ⟨"Runite ore", ⟨5, 5⟩, 43.33, "3/130"⟩,
      ⟨"Uncut diamond", ⟨5, 5⟩, 43.33, "3/130"⟩,
      ⟨"Torstol seed", ⟨3, 3⟩, 65, "2/130"⟩,
      ⟨"Ranarr seed", ⟨2, 2⟩, 65, "2/130"⟩,
      ⟨"Key master teleport", ⟨7, 7⟩, 65, "2/130"⟩]
    tertiary := [
      ⟨"Ensouled hellhound head", ⟨1, 1⟩, 15, "1/15"⟩,
      ⟨"Clue scroll (elite)", ⟨1, 1⟩, 100, "1/100"⟩,
      ⟨"Jar of souls", ⟨1, 1⟩, 2000, "1/2000"⟩,
      ⟨"Hellpuppy", ⟨1, 1⟩, 3000, "1/3000"⟩] }

/-- The hand-authored King Black Dragon fallback table
(src/dropSimulator.js lines 681-700). -/
def kbdFallbackDrops : DropTable :=
  { name := "King Black Dragon"
    mainTableRolls := 1
    uniqueTableChance := none
    always := [⟨"Dragon bones", ⟨1, 1⟩, 1, "Always"⟩]
    uniques := [
      ⟨"Dragon pickaxe", ⟨1, 1⟩, 1500, "1/1500"⟩,
      ⟨"Kbd heads", ⟨1, 1⟩, 128, "1/128"⟩]
    main := [
      ⟨"Coins", ⟨1000, 6000⟩, 4, "Common"⟩,
      ⟨"Adamant platebody", ⟨1, 1⟩, 64, "Uncommon"⟩,
      ⟨"Rune longsword", ⟨1, 1⟩, 64, "Uncommon"⟩]
    tertiary := [⟨"Clue scroll (elite)", ⟨1, 1⟩, 450, "1/450"⟩] }

/-- Model of `getFallbackDropData` (src/dropSimulator.js lines 672-704):
substring match of the lowercased monster name against the fixed registry. -/
def getFallbackDropData (monsterName : String) : Option DropTable :=
  let name := jsLower monsterName
  if jsIncludes name "cerberus" then some getCerberusHardcodedDrops
  else if jsIncludes name "kbd" || jsIncludes name "king black dragon" then
    some kbdFallbackDrops
  else none

/-- The `mainTableRolls` extraction (lines 232-235) combined with the
named-monster override (lines 238-239): a title containing `cerberus` forces
2 rolls. -/
def parsedRolls (view : MarkupView) (monsterName : String) : ℤ :=
  if jsIncludes (jsLower monsterName) "cerberus" then 2
  else
    match view.mainRollsCapture with
    | some s => jsOrOne (jsParseIntL s.toList)
    | none => 1

/-- The `uniqueTableChance` value after the named-monster override
(lines 238-241): for a `cerberus` title, a missing or zero chance (JS `||`
falsiness) defaults to `1/130`. -/
def parsedChance (view : MarkupView) (monsterName : String) : Option ℚ :=
  if jsIncludes (jsLower monsterName) "cerberus" then
    match parseUniqueChance view.uniqueRateCapture with
    | some c => if c = 0 then some (1 / 130) else some c
    | none => some (1 / 130)
  else parseUniqueChance view.uniqueRateCapture

/-- The drop table assembled from the markup itself (before the final
no-drops fallback check of lines 247-254). -/
def parsedTable (view : MarkupView) (monsterName : String) : DropTable :=
  { name := monsterName
    always := sectionDrops view.alwaysSec
    main := parseMainDropTable view.docPrimaryMatches view.docAltMatches
      (sectionDrops view.alwaysSec) (sectionDrops view.uniquesSec)
      (sectionDrops view.tertiarySec)
    uniques := sectionDrops view.uniquesSec
    tertiary := sectionDrops view.tertiarySec
    mainTableRolls := parsedRolls view monsterName
    uniqueTableChance := parsedChance view monsterName }

/-- Model of `parseDropTables` (src/dropSimulator.js lines 152-257) over a
`MarkupView`: parse the three delimited sections, extract the mechanic
overrides, parse the main table against the other sections, and fall back to
the catalog when `always`, `main` and `uniques` are all empty (the check of
line 247 ignores `tertiary`). -/
def parseDropTables (view : MarkupView) (monsterName : String) : DropTable :=
  if (parsedTable view monsterName).always = [] ∧
      (parsedTable view monsterName).main = [] ∧
      (parsedTable view monsterName).uniques = [] then
    match getFallbackDropData monsterName with
    | some fallbackData => fallbackData
    | none => parsedTable view monsterName
  else parsedTable view monsterName

/-! ## simulateKills (src/dropSimulator.js lines 47-150)

The two network fetches and their validation (lines 58-99) are an external
collaborator; a `FetchOutcome` names which of the mutually exclusive outcomes
of that block occurs: any thrown error (caught at line 138), the three early
`return {error}` exits, or successfully obtained page content, which the
regex engine turns into a `MarkupView`.
-/

/-- Outcome of the fetch-and-validate block of `simulateKills`. -/
inductive FetchOutcome where
  | throws
  | searchEmpty
  | pageMissing
  | noContent
  | content (pageTitle : String) (view : MarkupView)

/-- Result of `simulateKills`: either a simulation result or `{error}`. -/
inductive SimOut where
  | ok (r : SimulationResult)
  | error (msg : String)

/-- Model of `simulateKills` (src/dropSimulator.js lines 47-150): cache lookup
with freshness check, then the fetch block, parsing, the two fallback-catalog
paths (note: only the empty-parse path caches, lines 110-122; the catch path,
lines 138-149, does not), and cache insertion on success.  Returns the result
together with the cache after the call. -/
def simulateKills (sqrtF : ℚ → ℚ) (cache : DropCache) (now : ℕ)
    (fetch : FetchOutcome) (monsterName : String) (killCount : ℕ) (rng : Rng) :
    SimOut × DropCache :=
  let cacheKey := jsLower monsterName
  let fresh : Option DropTable :=
    match mapGet cache cacheKey with
    | some e => if (now : ℤ) - (e.timestamp : ℤ) < (CACHE_DURATION : ℤ)
        then some e.data else none
    | none => none
  match fresh with
  | some cachedData => (SimOut.ok (runSimulation sqrtF cachedData killCount rng), cache)
  | none =>
      match fetch with
      | .throws =>
          match getFallbackDropData monsterName with
          | some fallbackData =>
              (SimOut.ok (runSimulation sqrtF fallbackData killCount rng), cache)
          | none =>
              (SimOut.error ("Failed to fetch drop data for \"" ++ monsterName
                ++ "\". Please try again."), cache)
      | .searchEmpty =>
          (SimOut.error ("Could not find monster: \"" ++ monsterName ++ "\""), cache)
      | .pageMissing =>
          (SimOut.error ("Wiki page not found for: \"" ++ monsterName ++ "\""), cache)
      | .noContent =>
          (SimOut.error ("No content found for: \"" ++ monsterName ++ "\""), cache)
      | .content pageTitle view =>
          let dropData := parseDropTables view pageTitle
          if dropData.always = [] ∧ dropData.main = [] ∧
              dropData.uniques = [] ∧ dropData.tertiary = [] then
            match getFallbackDropData monsterName with
            | some fallbackData =>
                (SimOut.ok (runSimulation sqrtF fallbackData killCount rng),
                  cachePut cache now cacheKey fallbackData)
            | none =>
                (SimOut.error ("No drop table data found for: \"" ++ monsterName
                  ++ "\""), cache)
          else
            (SimOut.ok (runSimulation sqrtF dropData killCount rng),
              cachePut cache now cacheKey dropData)


/-! ## Basic lemmas about the loot object -/

theorem find?_eq_none_of_no_key {o : Loot} {k : String}
    (h : ∀ p ∈ o, p.1 ≠ k) : o.find? (fun p => p.1 = k) = none := by
  rw [List.find?_eq_none]
  intro p hp
  simpa using h p hp

theorem no_key_of_any_eq_false {o : Loot} {k : String}
    (h : ¬ o.any (fun p => p.1 = k)) : ∀ p ∈ o, p.1 ≠ k := by
  intro p hp hpk
  exact h (List.any_eq_true.mpr ⟨p, hp, by simpa using hpk⟩)

theorem find?_map_set_same {o : Loot} {k : String} {v : ℤ}
    (h : o.any (fun p => p.1 = k)) :
    (o.map (fun p => if p.1 = k then (k, v) else p)).find? (fun p => p.1 = k) =
      some (k, v) := by
  induction o with
  | nil => simp at h
  | cons p t ih =>
    by_cases hp : p.1 = k
    · simp [List.find?, hp]
    · simp only [List.any_cons, Bool.or_eq_true] at h
      rcases h with h | h
      · exact absurd (by simpa using h) hp
      · simp only [List.map_cons, if_neg hp]
        rw [List.find?]
        simp only [hp, decide_False]
        exact ih h

theorem find?_map_set_ne {o : Loot} {k x : String} {v : ℤ} (hx : x ≠ k) :
    (o.map (fun p => if p.1 = k then (k, v) else p)).find? (fun p => p.1 = x) =
      o.find? (fun p => p.1 = x) := by
  induction o with
  | nil => simp
  | cons p t ih =>
    by_cases hp : p.1 = k
    · simp only [List.map_cons, if_pos hp]
      rw [List.find?, List.find?]
      have h₁ : ¬(k = x) := fun hh => hx hh.symm
      have h₂ : ¬(p.1 = x) := by rw [hp]; exact h₁
      simp only [h₁, h₂, decide_False]
      exact ih
    · simp only [List.map_cons, if_neg hp]
      rw [List.find?, List.find?]
      by_cases hpx : p.1 = x
      · simp [hpx]
      · simp only [hpx, decide_False]
        exact ih

theorem objGet_objSet_same (o : Loot) (k : String) (v : ℤ) :
    objGet (objSet o k v) k = v := by
  rw [objSet]
  by_cases h : o.any (fun p => p.1 = k)
  · rw [if_pos h, objGet, find?_map_set_same h]
  · rw [if_neg h, objGet, List.find?_append,
      find?_eq_none_of_no_key (no_key_of_any_eq_false h)]
    simp [List.find?]

theorem objGet_objSet_ne (o : Loot) (k x : String) (v : ℤ) (h : x ≠ k) :
    objGet (objSet o k v) x = objGet o x := by
  rw [objSet]
  by_cases ha : o.any (fun p => p.1 = k)
  · rw [if_pos ha, objGet, objGet, find?_map_set_ne h]
  · rw [if_neg ha, objGet, objGet, List.find?_append]
    have h₂ : List.find? (fun p => decide (p.1 = x)) [(k, v)] = none := by
      have : ¬(k = x) := fun hh => h hh.symm
      simp [List.find?, this]
    cases hf : o.find? (fun p => p.1 = x) with
    | some p => simp
    | none => simp [h₂]

theorem objGet_addToLoot_same (o : Loot) (i : String) (q : ℤ) :
    objGet (addToLoot o i q) i = objGet o i + q := by
  rw [addToLoot, objGet_objSet_same]

theorem objGet_addToLoot_ne (o : Loot) (i : String) (q : ℤ) (x : String)
    (h : x ≠ i) : objGet (addToLoot o i q) x = objGet o x := by
  rw [addToLoot, objGet_objSet_ne _ _ _ _ h]

/-- Generic preservation of one loot key across a left fold of simulation
steps. -/
theorem foldl_loot_pres {α} (l : List α) (f : SimState → α → SimState)
    (x : String)
    (h : ∀ st a, a ∈ l → objGet (f st a).loot x = objGet st.loot x)
    (st : SimState) :
    objGet ((l.foldl f st)).loot x = objGet st.loot x := by
  induction l generalizing st with
  | nil => rfl
  | cons a t ih =>
    rw [List.foldl_cons]
    rw [ih (fun st b hb => h st b (List.mem_cons_of_mem a hb))]
    exact h st a (List.mem_cons_self a t)

/-! ## Membership lemmas for the weighted selection -/

theorem selectScan_mem {dws : List (Drop × ℚ)} {r : ℚ} {d : Drop}
    (h : selectScan dws r = some d) : d ∈ dws.map Prod.fst := by
  induction dws generalizing r with
  | nil => simp [selectScan] at h
  | cons p t ih =>
    rw [selectScan] at h
    by_cases hle : r - p.2 ≤ 0
    · rw [if_pos hle] at h
      simp only [Option.some.injEq] at h
      simp [← h]
    · rw [if_neg hle] at h
      exact List.mem_cons_of_mem _ (ih h)

theorem selectWeightedDrop_mem (drops : List Drop) (rng : Rng) (k : ℕ)
    (d : Drop) (h : (selectWeightedDrop drops rng k).1 = some d) :
    d ∈ drops := by
  match drops with
  | [] => simp [selectWeightedDrop] at h
  | [d₀] =>
    simp only [selectWeightedDrop, Option.some.injEq] at h
    simp [← h]
  | d₀ :: d₁ :: rest =>
    rw [selectWeightedDrop] at h
    by_cases ht :
        ((((d₀ :: d₁ :: rest).map (fun d => (d, dropWeight d))).map
          (fun p => p.2)).sum) = 0
    · rw [if_pos ht] at h
      simp only [Option.some.injEq] at h
      simp [← h]
    · rw [if_neg ht] at h
      cases hs : selectScan ((d₀ :: d₁ :: rest).map (fun d => (d, dropWeight d)))
          (rng k * (((d₀ :: d₁ :: rest).map (fun d => (d, dropWeight d))).map
            (fun p => p.2)).sum) with
      | some d' =>
        rw [hs] at h
        simp only [Option.some.injEq] at h
        subst h
        have := selectScan_mem hs
        simpa [List.map_map, Function.comp] using this
      | none =>
        rw [hs] at h
        simp only [Option.some.injEq] at h
        rw [← h]
        exact List.getLast_mem _

/-- C5: for every non-empty drops list and every random draw,
`selectWeightedDrop` returns an element of that list — never null and never a
value outside the list — including the degenerate cases of a single-element
list and of a total weight of zero. -/
theorem c5_selectWeightedDrop_in_list (drops : List Drop) (rng : Rng) (k : ℕ)
    (h : drops ≠ []) :
    ∃ d, (selectWeightedDrop drops rng k).1 = some d ∧ d ∈ drops := by
  match drops, h with
  | [d₀], _ => exact ⟨d₀, rfl, by simp⟩
  | d₀ :: d₁ :: rest, _ =>
    rw [selectWeightedDrop]
    by_cases ht :
        ((((d₀ :: d₁ :: rest).map (fun d => (d, dropWeight d))).map
          (fun p => p.2)).sum) = 0
    · rw [if_pos ht]
      exact ⟨d₀, rfl, by simp⟩
    · rw [if_neg ht]
      cases hs : selectScan ((d₀ :: d₁ :: rest).map (fun d => (d, dropWeight d)))
          (rng k * (((d₀ :: d₁ :: rest).map (fun d => (d, dropWeight d))).map
            (fun p => p.2)).sum) with
      | some d' =>
        refine ⟨d', rfl, ?_⟩
        have := selectScan_mem hs
        simpa [List.map_map, Function.comp] using this
      | none =>
        exact ⟨_, rfl, List.getLast_mem _⟩

/-- A fixed concrete random oracle used by witnesses. -/
def rngZero : Rng := fun _ => 0

/-- Witness for C5 at a concrete singleton list. -/
theorem c5_witness :
    ∃ d, (selectWeightedDrop [⟨"Bones", ⟨1, 1⟩, 128, "rare"⟩] rngZero 0).1 = some d ∧
      d ∈ [(⟨"Bones", ⟨1, 1⟩, 128, "rare"⟩ : Drop)] :=
  c5_selectWeightedDrop_in_list [⟨"Bones", ⟨1, 1⟩, 128, "rare"⟩] rngZero 0 (by decide)

/-! ## The jitter formula (C10) -/

/-- C10: for every `rarity > 0`, `killCount ≥ 0` and uniform draw `U ∈ [0,1)`,
the argument of `Math.round` in the jitter formula
`round(expected + (U − 0.5)·sqrt(expected))` with `expected = killCount/rarity`
is bounded below by `−1/16`, hence the rounded occurrence count is never
negative; the approximated-mode loops therefore iterate
`(jitterCount …).toNat ≥ 0` times and never add a negative amount of loot. -/
theorem c10_jitter_nonneg (rarity killCount u : ℝ) (hr : 0 < rarity)
    (hkc : 0 ≤ killCount) (hu : 0 ≤ u) (hu1 : u < 1) :
    -(1 / 16) ≤ jitterArg (killCount / rarity) u ∧
      0 ≤ jitterCount (killCount / rarity) u := by
  have hule : u < 1 := hu1
  have he : (0 : ℝ) ≤ killCount / rarity := div_nonneg hkc (le_of_lt hr)
  have hs := Real.sqrt_nonneg (killCount / rarity)
  have hsq := Real.sq_sqrt he
  have harg : -(1 / 16) ≤ jitterArg (killCount / rarity) u := by
    rw [jitterArg]
    nlinarith [sq_nonneg (Real.sqrt (killCount / rarity) - 1 / 4),
      mul_nonneg hu hs]
  refine ⟨harg, ?_⟩
  rw [jitterCount]
  have : (0 : ℝ) ≤ jitterArg (killCount / rarity) u + 1 / 2 := by linarith
  exact Int.le_floor.mpr (by exact_mod_cast this)

/-- Witness for C10 at `rarity = 1`, `killCount = 0`, `U = 0`. -/
theorem c10_witness :
    -(1 / 16) ≤ jitterArg ((0 : ℝ) / (1 : ℝ)) 0 ∧
      0 ≤ jitterCount ((0 : ℝ) / (1 : ℝ)) 0 :=
  c10_jitter_nonneg 1 0 0 one_pos (le_refl 0) (le_refl 0) one_pos

/-! ## Digit and parsing lemmas (groundwork for C6/C7) -/

/-- The property of being a decimal digit string. -/
def allDigits (l : List Char) : Prop := ∀ c ∈ l, c.isDigit = true

instance (l : List Char) : Decidable (allDigits l) := List.decidableBAll _ l

theorem ne_of_isDigit {c d : Char} (h : c.isDigit = true)
    (hd : d.isDigit = false) : c ≠ d := by
  intro hh
  subst hh
  rw [h] at hd
  simp at hd

theorem isDigit_not_ws {c : Char} (h : c.isDigit = true) :
    c.isWhitespace = false := by
  by_cases hw : c.isWhitespace
  · exfalso
    have hd : ((c = ' ' ∨ c = '\t') ∨ c = '\r') ∨ c = '\n' := by
      simpa [Char.isWhitespace] using hw
    rcases hd with ((rfl | rfl) | rfl) | rfl <;> exact absurd h (by decide)
  · simpa using hw

theorem dropWhile_cons_of_neg {α} (p : α → Bool) (c : α) (t : List α)
    (h : p c = false) : (c :: t).dropWhile p = c :: t := by
  rw [List.dropWhile_cons, if_neg (by simp [h])]

theorem dropWhile_eq_self_of_all {α} (p : α → Bool) :
    ∀ l : List α, (∀ c ∈ l, p c = false) → l.dropWhile p = l := by
  intro l h
  cases l with
  | nil => rfl
  | cons c t => exact dropWhile_cons_of_neg p c t (h c (List.mem_cons_self c t))

theorem takeWhile_eq_self_of_all {α} (p : α → Bool) :
    ∀ l : List α, (∀ c ∈ l, p c = true) → l.takeWhile p = l := by
  intro l
  induction l with
  | nil => intro _; rfl
  | cons c t ih =>
    intro h
    rw [List.takeWhile_cons, if_pos (h c (List.mem_cons_self c t)),
      ih (fun x hx => h x (List.mem_cons_of_mem c hx))]

theorem jsTrimL_eq_self {l : List Char}
    (h : ∀ c ∈ l, c.isWhitespace = false) : jsTrimL l = l := by
  rw [jsTrimL, dropWhile_eq_self_of_all _ _ h,
    dropWhile_eq_self_of_all _ _ (fun c hc => h c (List.mem_reverse.mp hc)),
    List.reverse_reverse]

theorem jsParseIntCore_digits {l : List Char} (hne : l ≠ [])
    (h : allDigits l) : jsParseIntCore 1 l = some ((decVal l : ℕ) : ℤ) := by
  cases l with
  | nil => exact absurd rfl hne
  | cons c₀ t₀ =>
    cases t₀ with
    | nil =>
      rw [jsParseIntCore]
      · rw [takeWhile_eq_self_of_all _ _ h, if_neg (by simp)]
        simp
      · intro _ _ _ hh
        simp at hh
    | cons c₁ t =>
      rw [jsParseIntCore]
      dsimp only
      have h₁ := h c₁ (List.mem_cons_of_mem c₀ (List.mem_cons_self c₁ t))
      have hx : ¬(c₀ = '0' ∧ (c₁ = 'x' ∨ c₁ = 'X')) := by
        rintro ⟨-, hc | hc⟩ <;> exact ne_of_isDigit h₁ (by decide) hc
      rw [if_neg hx, takeWhile_eq_self_of_all _ _ h, if_neg (by simp)]
      simp

theorem jsParseIntL_digits {l : List Char} (hne : l ≠ [])
    (h : allDigits l) : jsParseIntL l = some ((decVal l : ℕ) : ℤ) := by
  cases l with
  | nil => exact absurd rfl hne
  | cons c t =>
    have hc := h c (List.mem_cons_self c t)
    rw [jsParseIntL, dropWhile_cons_of_neg _ _ _ (isDigit_not_ws hc)]
    dsimp only
    rw [if_neg (show ¬(c = '-') from ne_of_isDigit hc (by decide)),
      if_neg (show ¬(c = '+') from ne_of_isDigit hc (by decide))]
    exact jsParseIntCore_digits (by simp) h

theorem jsParseIntCore_one_nonneg {l : List Char} {v : ℤ}
    (h : jsParseIntCore 1 l = some v) : 0 ≤ v := by
  cases l with
  | nil => exact absurd h (show ¬((none : Option ℤ) = some v) by simp)
  | cons c₀ t₀ =>
    cases t₀ with
    | nil =>
      have h₂ : (if List.takeWhile Char.isDigit [c₀] = [] then none
          else some ((1 : ℤ) * ((decVal (List.takeWhile Char.isDigit [c₀]) : ℕ) : ℤ))) =
            some v := h
      split at h₂
      · exact absurd h₂ (by simp)
      · simp only [Option.some.injEq] at h₂
        omega
    | cons c₁ t =>
      rw [jsParseIntCore] at h
      dsimp only at h
      split at h
      · split at h
        · exact absurd h (by simp)
        · simp only [Option.some.injEq] at h
          omega
      · split at h
        · exact absurd h (by simp)
        · simp only [Option.some.injEq] at h
          omega

theorem jsParseIntL_nonneg {l : List Char} (hm : '-' ∉ l) {v : ℤ}
    (hv : jsParseIntL l = some v) : 0 ≤ v := by
  rw [jsParseIntL] at hv
  have hsub : ∀ c ∈ l.dropWhile Char.isWhitespace, c ∈ l :=
    fun c hc => (List.dropWhile_sublist _).subset hc
  cases hd : l.dropWhile Char.isWhitespace with
  | nil =>
    rw [hd] at hv
    exact jsParseIntCore_one_nonneg hv
  | cons c t =>
    rw [hd] at hv
    have hv₂ : (if c = '-' then jsParseIntCore (-1) t
        else if c = '+' then jsParseIntCore 1 t
        else jsParseIntCore 1 (c :: t)) = some v := hv
    have hcm : c ∈ l := by
      apply hsub
      rw [hd]
      exact List.mem_cons_self c t
    have hcne : ¬(c = '-') := fun hh => hm (hh ▸ hcm)
    rw [if_neg hcne] at hv₂
    by_cases hp : c = '+'
    · rw [if_pos hp] at hv₂
      exact jsParseIntCore_one_nonneg hv₂
    · rw [if_neg hp] at hv₂
      exact jsParseIntCore_one_nonneg hv₂

theorem jsOrOne_pos {o : Option ℤ} (h : ∀ v, o = some v → 0 ≤ v) :
    1 ≤ jsOrOne o := by
  match o with
  | none => exact le_refl 1
  | some v =>
    rw [jsOrOne]
    have := h v rfl
    by_cases hv : v = 0
    · rw [if_pos hv]
    · rw [if_neg hv]
      omega

theorem jsOrDefault_pos {o : Option ℤ} {d : ℤ}
    (h : ∀ v, o = some v → 0 ≤ v) (hd : 1 ≤ d) : 1 ≤ jsOrDefault o d := by
  match o with
  | none => exact hd
  | some v =>
    rw [jsOrDefault]
    have := h v rfl
    by_cases hv : v = 0
    · rw [if_pos hv]
      exact hd
    · rw [if_neg hv]
      omega

theorem jsOrOne_of_pos {v : ℤ} (hv : 0 < v) : jsOrOne (some v) = v := by
  rw [jsOrOne, if_neg (by omega)]

theorem jsOrDefault_of_pos {v d : ℤ} (hv : 0 < v) :
    jsOrDefault (some v) d = v := by
  rw [jsOrDefault, if_neg (by omega)]

/-! ## splitOnChar lemmas -/

theorem splitOnChar_ne_nil (sep : Char) : ∀ l, splitOnChar sep l ≠ [] := by
  intro l
  cases l with
  | nil => simp [splitOnChar]
  | cons c t =>
    rw [splitOnChar]
    by_cases hc : c = sep
    · rw [if_pos hc]
      simp
    · rw [if_neg hc]
      cases splitOnChar sep t <;> simp

theorem splitOnChar_no_sep {sep : Char} : ∀ {l}, sep ∉ l →
    splitOnChar sep l = [l] := by
  intro l
  induction l with
  | nil => intro _; rfl
  | cons c t ih =>
    intro h
    rw [splitOnChar,
      if_neg (fun hh => h (by rw [← hh]; exact List.mem_cons_self c t)),
      ih (fun hh => h (List.mem_cons_of_mem c hh))]

theorem splitOnChar_append {sep : Char} {l₂ : List Char} : ∀ {l₁}, sep ∉ l₁ →
    splitOnChar sep (l₁ ++ sep :: l₂) = l₁ :: splitOnChar sep l₂ := by
  intro l₁
  induction l₁ with
  | nil =>
    intro _
    rw [List.nil_append, splitOnChar, if_pos rfl]
  | cons c t ih =>
    intro h
    rw [List.cons_append, splitOnChar,
      if_neg (fun hh => h (by rw [← hh]; exact List.mem_cons_self c t)),
      ih (fun hh => h (List.mem_cons_of_mem c hh))]

theorem splitOnChar_parts_no_sep {sep : Char} :
    ∀ l p, p ∈ splitOnChar sep l → sep ∉ p := by
  intro l
  induction l with
  | nil =>
    intro p hp
    rw [splitOnChar] at hp
    simp only [List.mem_singleton] at hp
    subst hp
    simp
  | cons c t ih =>
    intro p hp
    rw [splitOnChar] at hp
    by_cases hc : c = sep
    · rw [if_pos hc] at hp
      rcases List.mem_cons.mp hp with rfl | hp
      · simp
      · exact ih p hp
    · rw [if_neg hc] at hp
      cases hsp : splitOnChar sep t with
      | nil => exact absurd hsp (splitOnChar_ne_nil sep t)
      | cons q r =>
        rw [hsp] at hp
        rcases List.mem_cons.mp hp with rfl | hp
        · intro hmem
          rcases List.mem_cons.mp hmem with hh | hh
          · exact hc hh.symm
          · exact ih q (by rw [hsp]; exact List.mem_cons_self q r) hh
        · exact ih p (by rw [hsp]; exact List.mem_cons_of_mem q hp)

theorem splitOnChar_two_of_mem {sep : Char} :
    ∀ {l}, sep ∈ l → ∃ p₀ p₁ r, splitOnChar sep l = p₀ :: p₁ :: r := by
  intro l
  induction l with
  | nil => intro h; simp at h
  | cons c t ih =>
    intro h
    rw [splitOnChar]
    by_cases hc : c = sep
    · rw [if_pos hc]
      cases hsp : splitOnChar sep t with
      | nil => exact absurd hsp (splitOnChar_ne_nil sep t)
      | cons q r => exact ⟨[], q, r, rfl⟩
    · rw [if_neg hc]
      have hm : sep ∈ t := by
        rcases List.mem_cons.mp h with hh | hh
        · exact absurd hh.symm hc
        · exact hh
      obtain ⟨p₀, p₁, r, hsp⟩ := ih hm
      rw [hsp]
      exact ⟨c :: p₀, p₁, r, rfl⟩

/-! ## stripParens lemmas -/

theorem parenMatchAt_none {l : List Char} (h : '(' ∉ l) :
    parenMatchAt l = none := by
  rw [parenMatchAt]
  split
  case _ r heq =>
    exfalso
    apply h
    have : '(' ∈ l.dropWhile Char.isWhitespace := by
      rw [heq]
      exact List.mem_cons_self _ r
    exact (List.dropWhile_sublist _).subset this
  case _ => rfl

theorem stripParensGo_no_paren :
    ∀ (fuel : ℕ) (l : List Char), '(' ∉ l → stripParensGo fuel l = l := by
  intro fuel
  induction fuel with
  | zero => intro l _; rfl
  | succ n ih =>
    intro l h
    cases l with
    | nil => rfl
    | cons c t =>
      rw [stripParensGo, parenMatchAt_none h,
        ih t (fun hh => h (List.mem_cons_of_mem c hh))]

theorem stripParens_no_paren {l : List Char} (h : '(' ∉ l) :
    stripParens l = l :=
  stripParensGo_no_paren l.length l h

/-! ## C6: parseRarity -/

theorem parseRarityFrac_digits {l₁ l₂ : List Char} (h₁ : l₁ ≠ [])
    (h₂ : l₂ ≠ []) (hd₁ : allDigits l₁) (hd₂ : allDigits l₂)
    (hv₁ : 0 < decVal l₁) (hv₂ : 0 < decVal l₂) :
    parseRarityFrac (l₁ ++ '/' :: l₂) =
      some (((decVal l₂ : ℕ) : ℚ) / ((decVal l₁ : ℕ) : ℚ)) := by
  have hsl₁ : '/' ∉ l₁ := fun hm => absurd (hd₁ '/' hm) (by decide)
  have hsl₂ : '/' ∉ l₂ := fun hm => absurd (hd₂ '/' hm) (by decide)
  rw [parseRarityFrac,
    if_pos (List.mem_append.mpr (Or.inr (List.mem_cons_self _ _))),
    splitOnChar_append hsl₁, splitOnChar_no_sep hsl₂]
  dsimp only
  rw [jsParseIntL_digits h₁ hd₁, jsParseIntL_digits h₂ hd₂,
    jsOrOne_of_pos (by exact_mod_cast hv₂), jsOrOne_of_pos (by exact_mod_cast hv₁),
    if_pos ⟨by exact_mod_cast hv₂, by exact_mod_cast hv₁⟩]
  exact congrArg some (by push_cast; ring)

/-- C6: `parseRarity` maps every fraction string `n/d` of positive decimal
numbers to `d/n` (in particular `"1/512" ↦ 512` and `"5/130" ↦ 26`), maps the
textual buckets to `1`, `8`, `32`, `128` and `512` respectively, and yields
the default `128` for an unparseable string. -/
theorem c6_parseRarity :
    (∀ l₁ l₂ : List Char, l₁ ≠ [] → l₂ ≠ [] →
      allDigits l₁ → allDigits l₂ → 0 < decVal l₁ → 0 < decVal l₂ →
      parseRarity (String.mk (l₁ ++ '/' :: l₂)) =
        ((decVal l₂ : ℕ) : ℚ) / ((decVal l₁ : ℕ) : ℚ)) ∧
    parseRarity "1/512" = 512 ∧ parseRarity "5/130" = 26 ∧
    parseRarity "always" = 1 ∧ parseRarity "common" = 8 ∧
    parseRarity "uncommon" = 32 ∧ parseRarity "rare" = 128 ∧
    parseRarity "very rare" = 512 ∧ parseRarity "%unparseable%" = 128 := by
  refine ⟨?_, ?_, ?_, rfl, rfl, rfl, rfl, rfl, rfl⟩
  · intro l₁ l₂ h₁ h₂ hd₁ hd₂ hv₁ hv₂
    have hball : ∀ c ∈ l₁ ++ '/' :: l₂, c.isWhitespace = false := by
      intro c hc
      rcases List.mem_append.mp hc with hc | hc
      · exact isDigit_not_ws (hd₁ c hc)
      · rcases List.mem_cons.mp hc with rfl | hc
        · decide
        · exact isDigit_not_ws (hd₂ c hc)
    show parseRarityL (l₁ ++ '/' :: l₂) = _
    rw [parseRarityL, if_neg (by simp [h₁]), jsTrimL_eq_self hball,
      parseRarityCleaned, parseRarityFrac_digits h₁ h₂ hd₁ hd₂ hv₁ hv₂]
  · rw [show parseRarity "1/512" = (((512 : ℕ) : ℤ) : ℚ) / (((1 : ℕ) : ℤ) : ℚ) from rfl]
    norm_num
  · rw [show parseRarity "5/130" = (((130 : ℕ) : ℤ) : ℚ) / (((5 : ℕ) : ℤ) : ℚ) from rfl]
    norm_num

/-- Witness for C6 applied at the fraction `"1/512"`. -/
theorem c6_witness :
    parseRarity (String.mk (['1'] ++ '/' :: ['5', '1', '2'])) =
      ((decVal ['5', '1', '2'] : ℕ) : ℚ) / ((decVal ['1'] : ℕ) : ℚ) :=
  c6_parseRarity.1 ['1'] ['5', '1', '2'] (by decide) (by decide)
    (by decide) (by decide) (by decide) (by decide)

/-! ## C7: parseQuantity -/

theorem parseQuantityCleaned_bounds (cleaned : List Char) :
    1 ≤ (parseQuantityCleaned cleaned).min ∧
      (parseQuantityCleaned cleaned).min ≤ (parseQuantityCleaned cleaned).max := by
  by_cases h0 : cleaned = []
  · simp only [parseQuantityCleaned, if_pos h0]
    exact ⟨le_refl 1, le_refl 1⟩
  · by_cases h1 : '-' ∈ cleaned
    · obtain ⟨p₀, p₁, r, hsp⟩ := splitOnChar_two_of_mem h1
      simp only [parseQuantityCleaned, if_neg h0, if_pos h1, hsp]
      have hp₀ : '-' ∉ p₀ :=
        splitOnChar_parts_no_sep _ p₀ (by rw [hsp]; exact List.mem_cons_self _ _)
      have hp₁ : '-' ∉ p₁ :=
        splitOnChar_parts_no_sep _ p₁
          (by rw [hsp]; exact List.mem_cons_of_mem _ (List.mem_cons_self _ _))
      have hmn : 1 ≤ jsOrOne (jsParseIntL p₀) :=
        jsOrOne_pos (fun v hv => jsParseIntL_nonneg hp₀ hv)
      have hmx : 1 ≤ jsOrDefault (jsParseIntL p₁) (jsOrOne (jsParseIntL p₀)) :=
        jsOrDefault_pos (fun v hv => jsParseIntL_nonneg hp₁ hv) hmn
      exact ⟨le_min hmn hmx, min_le_max⟩
    · simp only [parseQuantityCleaned, if_neg h0, if_neg h1]
      have hq : 1 ≤ jsOrOne (jsParseIntL cleaned) :=
        jsOrOne_pos (fun v hv => jsParseIntL_nonneg h1 hv)
      exact ⟨hq, le_refl _⟩

theorem parseQuantityCleaned_range {l₁ l₂ : List Char} (h₁ : l₁ ≠ [])
    (h₂ : l₂ ≠ []) (hd₁ : allDigits l₁) (hd₂ : allDigits l₂)
    (hv₁ : 0 < decVal l₁) (hv₂ : 0 < decVal l₂) :
    parseQuantityCleaned (l₁ ++ '-' :: l₂) =
      ⟨min ((decVal l₁ : ℕ) : ℤ) ((decVal l₂ : ℕ) : ℤ),
        max ((decVal l₁ : ℕ) : ℤ) ((decVal l₂ : ℕ) : ℤ)⟩ := by
  have hsl₁ : '-' ∉ l₁ := fun hm => absurd (hd₁ '-' hm) (by decide)
  have hsl₂ : '-' ∉ l₂ := fun hm => absurd (hd₂ '-' hm) (by decide)
  rw [parseQuantityCleaned, if_neg (by simp [h₁]),
    if_pos (List.mem_append.mpr (Or.inr (List.mem_cons_self _ _))),
    splitOnChar_append hsl₁, splitOnChar_no_sep hsl₂]
  dsimp only
  rw [jsParseIntL_digits h₁ hd₁, jsParseIntL_digits h₂ hd₂,
    jsOrOne_of_pos (by exact_mod_cast hv₁), jsOrDefault_of_pos (by exact_mod_cast hv₂)]

/-- C7: `parseQuantity` strips parenthetical annotations, is order-independent
on ranges (`lo-hi` yields `{min(lo,hi), max(lo,hi)}`, so `"5-10"` and
`"10-5"` both yield `{5,10}`), maps a bare number `n` to `{n,n}`, maps
unparseable input to `{1,1}`, and every result satisfies
`1 ≤ min ≤ max`. -/
theorem c7_parseQuantity :
    (∀ s : String, 1 ≤ (parseQuantity s).min ∧
      (parseQuantity s).min ≤ (parseQuantity s).max) ∧
    (∀ l₁ l₂ : List Char, l₁ ≠ [] → l₂ ≠ [] →
      allDigits l₁ → allDigits l₂ → 0 < decVal l₁ → 0 < decVal l₂ →
      parseQuantity (String.mk (l₁ ++ '-' :: l₂)) =
        ⟨min ((decVal l₁ : ℕ) : ℤ) ((decVal l₂ : ℕ) : ℤ),
          max ((decVal l₁ : ℕ) : ℤ) ((decVal l₂ : ℕ) : ℤ)⟩) ∧
    (∀ l : List Char, l ≠ [] → allDigits l → 0 < decVal l →
      parseQuantity (String.mk l) = ⟨((decVal l : ℕ) : ℤ), ((decVal l : ℕ) : ℤ)⟩) ∧
    parseQuantity "5-10" = ⟨5, 10⟩ ∧ parseQuantity "10-5" = ⟨5, 10⟩ ∧
    parseQuantity "3 (noted)" = ⟨3, 3⟩ ∧ parseQuantity "not a number" = ⟨1, 1⟩ := by
  refine ⟨?_, ?_, ?_, by decide, by decide, by decide, by decide⟩
  · intro s
    show 1 ≤ (parseQuantityL s.toList).min ∧
      (parseQuantityL s.toList).min ≤ (parseQuantityL s.toList).max
    by_cases h0 : s.toList = []
    · simp only [parseQuantityL, if_pos h0]
      exact ⟨le_refl 1, le_refl 1⟩
    · simp only [parseQuantityL, if_neg h0]
      exact parseQuantityCleaned_bounds _
  · intro l₁ l₂ h₁ h₂ hd₁ hd₂ hv₁ hv₂
    have hnp : '(' ∉ l₁ ++ '-' :: l₂ := by
      intro hm
      rcases List.mem_append.mp hm with hc | hc
      · exact absurd (hd₁ '(' hc) (by decide)
      · rcases List.mem_cons.mp hc with hh | hc
        · exact absurd hh (by decide)
        · exact absurd (hd₂ '(' hc) (by decide)
    have hball : ∀ c ∈ l₁ ++ '-' :: l₂, c.isWhitespace = false := by
      intro c hc
      rcases List.mem_append.mp hc with hc | hc
      · exact isDigit_not_ws (hd₁ c hc)
      · rcases List.mem_cons.mp hc with rfl | hc
        · decide
        · exact isDigit_not_ws (hd₂ c hc)
    show parseQuantityL (l₁ ++ '-' :: l₂) = _
    rw [parseQuantityL, if_neg (by simp [h₁]), stripParens_no_paren hnp,
      jsTrimL_eq_self hball]
    exact parseQuantityCleaned_range h₁ h₂ hd₁ hd₂ hv₁ hv₂
  · intro l hne hd hv
    have hnp : '(' ∉ l := fun hm => absurd (hd '(' hm) (by decide)
    have hball : ∀ c ∈ l, c.isWhitespace = false :=
      fun c hc => isDigit_not_ws (hd c hc)
    have hsl : '-' ∉ l := fun hm => absurd (hd '-' hm) (by decide)
    show parseQuantityL l = _
    rw [parseQuantityL, if_neg hne, stripParens_no_paren hnp,
      jsTrimL_eq_self hball, parseQuantityCleaned, if_neg hne, if_neg hsl,
      jsParseIntL_digits hne hd, jsOrOne_of_pos (by exact_mod_cast hv)]

/-- Witness for C7 applied at `"10-5"` built from digit lists. -/
theorem c7_witness :
    (1 ≤ (parseQuantity "x").min ∧ (parseQuantity "x").min ≤ (parseQuantity "x").max) ∧
    parseQuantity (String.mk (['1', '0'] ++ '-' :: ['5'])) =
      ⟨min ((decVal ['1', '0'] : ℕ) : ℤ) ((decVal ['5'] : ℕ) : ℤ),
        max ((decVal ['1', '0'] : ℕ) : ℤ) ((decVal ['5'] : ℕ) : ℤ)⟩ :=
  ⟨c7_parseQuantity.1 "x",
    c7_parseQuantity.2.1 ['1', '0'] ['5'] (by decide) (by decide) (by decide)
      (by decide) (by decide) (by decide)⟩

/-! ## C1: cache size bound -/

/-- A minimal drop table used as the cache payload in the C1 evaluation. -/
def trivialTable : DropTable := ⟨"X", [], [], [], [], 1, none⟩

/-- C1 (evaluation at the failing input): from an empty cache, 101 `put`
insertions with distinct keys, all performed at the same millisecond
(`Date.now() = 0`), leave 101 entries — after 100 insertions the cache is at
`MAX_CACHE_SIZE`, but since every timestamp equals `Date.now()`,
`evictLRUEntry`'s scan (initialized to `Date.now()` with a strict `<`) finds
nothing to evict, and the 101st `set` pushes the size to 101. -/
theorem c1_cache_overflow_eval :
    ((List.range 100).foldl
      (fun c i => cachePut c 0 (toString i) trivialTable) []).length = 100 ∧
    ((List.range 101).foldl
      (fun c i => cachePut c 0 (toString i) trivialTable) []).length = 101 := by
  constructor <;> decide

/-! ## C3 and C4: the two fallback-catalog paths of simulateKills -/

/-- The identity function standing in for `Math.sqrt` in closed evaluations
(the exact-mode paths never call it). -/
def idSqrt : ℚ → ℚ := fun q => q

/-- A `MarkupView` on which every extraction pattern produced no match. -/
def emptyMarkupView : MarkupView := ⟨none, none, none, none, none, [], []⟩

/-- C3 (counterexample): when the live fetch throws for `"cerberus"`,
`simulateKills` answers from the FallbackCatalog table but stores **no**
cache entry — the catch path (lines 138-149) returns the fallback simulation
without touching the cache, contradicting the claim that both fallback paths
store a `CacheEntry` before returning. -/
theorem c3_counterexample :
    (simulateKills idSqrt [] 0 .throws "cerberus" 5 rngZero).1 =
      SimOut.ok (runSimulation idSqrt getCerberusHardcodedDrops 5 rngZero) ∧
    mapGet (simulateKills idSqrt [] 0 .throws "cerberus" 5 rngZero).2 "cerberus" =
      none :=
  ⟨rfl, rfl⟩

/-- C3 (amended): only the empty-parse fallback path stores a `CacheEntry`.
When parsing yields no usable data (here: a fetched page `"Hellhound"` whose
markup matches nothing) and the FallbackCatalog matches the requested monster,
the fallback table is cached under the lowercased monster key with the current
timestamp before the simulation result is returned; when the live fetch
throws, the fallback simulation is returned with the cache unchanged. -/
theorem c3_fallback_caching :
    (∀ (now : ℕ) (rng : Rng) (f : ℚ → ℚ),
      (simulateKills f [] now .throws "cerberus" 5 rng).1 =
        SimOut.ok (runSimulation f getCerberusHardcodedDrops 5 rng) ∧
      (simulateKills f [] now .throws "cerberus" 5 rng).2 = []) ∧
    (∀ (now : ℕ) (rng : Rng) (f : ℚ → ℚ),
      (simulateKills f [] now (.content "Hellhound" emptyMarkupView)
          "cerberus" 5 rng).1 =
        SimOut.ok (runSimulation f getCerberusHardcodedDrops 5 rng) ∧
      mapGet (simulateKills f [] now (.content "Hellhound" emptyMarkupView)
          "cerberus" 5 rng).2 "cerberus" =
        some ⟨getCerberusHardcodedDrops, now⟩) :=
  ⟨fun _ _ _ => ⟨rfl, rfl⟩, fun _ _ _ => ⟨rfl, rfl⟩⟩

/-- C4: if the acquisition fetch throws for `"cerberus"` (a FallbackCatalog
match), `simulateKills` returns a `SimulationResult` — not an `{error}` —
computed by running the simulation on the hardcoded Cerberus fallback table,
for every random oracle. -/
theorem c4_fallback_result (now : ℕ) (rng : Rng) (f : ℚ → ℚ) :
    (simulateKills f [] now .throws "cerberus" 5 rng).1 =
      SimOut.ok (runSimulation f getCerberusHardcodedDrops 5 rng) :=
  rfl

/-! ## C2: de-duplication across drop-table sections -/

/-- A markup view whose Always section matched the `Bones` line twice and
whose Uniques section matched the same `Bones` line once. -/
def c2View : MarkupView :=
  { alwaysSec := some ⟨[("Bones", "1", "1/2"), ("Bones", "1", "1/2")], []⟩
    uniquesSec := some ⟨[("Bones", "1", "1/2")], []⟩
    tertiarySec := none
    uniqueRateCapture := none
    mainRollsCapture := none
    docPrimaryMatches := []
    docAltMatches := [] }

/-- C2 (counterexample): `parseDropTables` performs no de-duplication within a
sequence nor among `always`/`uniques`/`tertiary` — an item matched twice in
the Always section stays duplicated, and an item matched in both the Always
and Uniques sections is kept in **both**, not only in the higher-priority
sequence. -/
theorem c2_counterexample :
    (parseDropTables c2View "Testmon").always.map (fun d => d.item) =
      ["Bones", "Bones"] ∧
    (parseDropTables c2View "Testmon").uniques.map (fun d => d.item) =
      ["Bones"] ∧
    ¬ ((parseDropTables c2View "Testmon").always.map (fun d => d.item)).Nodup := by
  refine ⟨rfl, rfl, ?_⟩
  intro h
  rw [show (parseDropTables c2View "Testmon").always.map (fun d => d.item) =
    ["Bones", "Bones"] from rfl] at h
  simp at h

theorem mainSkip_false_elim {a u t : List Drop} {n : String}
    (h : mainSkip a u t n = false) :
    (∀ e ∈ a, e.item ≠ n) ∧ (∀ e ∈ u, e.item ≠ n) ∧ (∀ e ∈ t, e.item ≠ n) := by
  rw [mainSkip] at h
  simp only [Bool.or_eq_false_iff, List.any_eq_false, decide_eq_true_eq] at h
  exact ⟨h.1.1, h.1.2, h.2⟩

theorem parseMain_primary_inv (docP : List LineMatch) (a u t : List Drop) :
    ∀ acc, (∀ d ∈ acc, mainSkip a u t d.item = false) →
      ∀ d ∈ docP.foldl
        (fun acc m => if mainSkip a u t m.1 then acc else acc ++ [primaryDrop m])
        acc,
        mainSkip a u t d.item = false := by
  induction docP with
  | nil => intro acc hacc d hd; exact hacc d hd
  | cons m rest ih =>
    intro acc hacc d hd
    rw [List.foldl_cons] at hd
    by_cases hs : mainSkip a u t m.1
    · rw [if_pos hs] at hd
      exact ih acc hacc d hd
    · rw [if_neg hs] at hd
      refine ih _ ?_ d hd
      intro e he
      rcases List.mem_append.mp he with he | he
      · exact hacc e he
      · rcases List.mem_singleton.mp he with rfl
        exact Bool.eq_false_iff.mpr hs

theorem parseMainDropTable_skip (docP : List LineMatch)
    (docA : List (List LineMatch)) (a u t : List Drop) :
    ∀ d ∈ parseMainDropTable docP docA a u t,
      mainSkip a u t d.item = false := by
  intro d hd
  simp only [parseMainDropTable] at hd
  split at hd
  · rcases List.mem_filter.mp hd with ⟨-, hf⟩
    simpa using hf
  · exact parseMain_primary_inv docP a u t [] (by simp) d hd

theorem getFallbackDropData_cases {name : String} {tbl : DropTable}
    (h : getFallbackDropData name = some tbl) :
    tbl = getCerberusHardcodedDrops ∨ tbl = kbdFallbackDrops := by
  rw [getFallbackDropData] at h
  split at h
  · simp only [Option.some.injEq] at h
    exact Or.inl h.symm
  · split at h
    · simp only [Option.some.injEq] at h
      exact Or.inr h.symm
    · exact absurd h (by simp)

/-- C2 (amended): `parseDropTables` de-duplicates only the `main` sequence
against the other three sections — every item of the returned `main` is absent
from the returned `always`, `uniques` and `tertiary` (this also holds for the
hand-authored fallback tables); no de-duplication is performed within a
sequence or among `always`, `uniques` and `tertiary` themselves. -/
theorem c2_main_disjoint (view : MarkupView) (name : String) (d : Drop)
    (hd : d ∈ (parseDropTables view name).main) :
    (∀ e ∈ (parseDropTables view name).always, e.item ≠ d.item) ∧
    (∀ e ∈ (parseDropTables view name).uniques, e.item ≠ d.item) ∧
    (∀ e ∈ (parseDropTables view name).tertiary, e.item ≠ d.item) := by
  by_cases hc : (parsedTable view name).always = [] ∧
      (parsedTable view name).main = [] ∧ (parsedTable view name).uniques = []
  · rw [parseDropTables, if_pos hc] at hd ⊢
    cases hfb : getFallbackDropData name with
    | none =>
      rw [hfb] at hd
      have hd₂ : d ∈ (parsedTable view name).main := hd
      rw [hc.2.1] at hd₂
      exact absurd hd₂ (List.not_mem_nil d)
    | some fb =>
      rw [hfb] at hd
      rcases getFallbackDropData_cases hfb with rfl | rfl
      · have hd₂ : d ∈ getCerberusHardcodedDrops.main := hd
        have hall : ∀ d₂ ∈ getCerberusHardcodedDrops.main,
            (∀ e ∈ getCerberusHardcodedDrops.always, e.item ≠ d₂.item) ∧
            (∀ e ∈ getCerberusHardcodedDrops.uniques, e.item ≠ d₂.item) ∧
            (∀ e ∈ getCerberusHardcodedDrops.tertiary, e.item ≠ d₂.item) := by
          decide
        exact hall d hd₂
      · have hd₂ : d ∈ kbdFallbackDrops.main := hd
        have hall : ∀ d₂ ∈ kbdFallbackDrops.main,
            (∀ e ∈ kbdFallbackDrops.always, e.item ≠ d₂.item) ∧
            (∀ e ∈ kbdFallbackDrops.uniques, e.item ≠ d₂.item) ∧
            (∀ e ∈ kbdFallbackDrops.tertiary, e.item ≠ d₂.item) := by
          decide
        exact hall d hd₂
  · rw [parseDropTables, if_neg hc] at hd ⊢
    exact mainSkip_false_elim (parseMainDropTable_skip _ _ _ _ _ d hd)

/-- A markup view whose only match is one document-wide `Coins` drop line. -/
def c2WitnessView : MarkupView :=
  { alwaysSec := none
    uniquesSec := none
    tertiarySec := none
    uniqueRateCapture := none
    mainRollsCapture := none
    docPrimaryMatches := [("Coins", "1", "1/2")]
    docAltMatches := [] }

/-- Witness for C2's amended statement at a concrete one-item main table. -/
theorem c2_witness :
    (∀ e ∈ (parseDropTables c2WitnessView "Testmon").always,
      e.item ≠ (primaryDrop ("Coins", "1", "1/2")).item) ∧
    (∀ e ∈ (parseDropTables c2WitnessView "Testmon").uniques,
      e.item ≠ (primaryDrop ("Coins", "1", "1/2")).item) ∧
    (∀ e ∈ (parseDropTables c2WitnessView "Testmon").tertiary,
      e.item ≠ (primaryDrop ("Coins", "1", "1/2")).item) :=
  c2_main_disjoint c2WitnessView "Testmon" (primaryDrop ("Coins", "1", "1/2"))
    (by rw [show (parseDropTables c2WitnessView "Testmon").main =
        [primaryDrop ("Coins", "1", "1/2")] from rfl]
        exact List.mem_singleton.mpr rfl)

/-! ## C8: exact-mode always drops -/

theorem opt_get_mem {l : List Drop} {idx : ℤ} {ud : Drop}
    (h : (if 0 ≤ idx then l.get? idx.toNat else none) = some ud) : ud ∈ l := by
  split at h
  · exact List.get?_mem h
  · exact absurd h (by simp)

theorem alwaysStep_pres (rng : Rng) (st : SimState) (d : Drop) (x : String)
    (h : x ≠ d.item) :
    objGet (alwaysStep rng st d).loot x = objGet st.loot x := by
  simp only [alwaysStep]
  exact objGet_addToLoot_ne _ _ _ _ h

theorem alwaysStep_fixed (rng : Rng) (st : SimState) (d : Drop)
    (hq : d.quantity.min = d.quantity.max) :
    objGet (alwaysStep rng st d).loot d.item =
      objGet st.loot d.item + d.quantity.min := by
  simp only [alwaysStep]
  rw [objGet_addToLoot_same, getRandomQuantity, if_pos hq]

theorem alwaysPhase_fixed (rng : Rng) (pre post : List Drop) (d : Drop)
    (hpre : ∀ e ∈ pre, e.item ≠ d.item) (hpost : ∀ e ∈ post, e.item ≠ d.item)
    (hq : d.quantity.min = d.quantity.max) (st : SimState) :
    objGet (alwaysPhase rng (pre ++ d :: post) st).loot d.item =
      objGet st.loot d.item + d.quantity.min := by
  rw [alwaysPhase, List.foldl_append, List.foldl_cons]
  have hpreserve : objGet ((pre.foldl (alwaysStep rng) st)).loot d.item =
      objGet st.loot d.item :=
    foldl_loot_pres pre (alwaysStep rng) d.item
      (fun st' a ha => alwaysStep_pres rng st' a d.item
        (fun hh => hpre a ha hh.symm)) st
  rw [foldl_loot_pres post (alwaysStep rng) d.item
      (fun st' a ha => alwaysStep_pres rng st' a d.item
        (fun hh => hpost a ha hh.symm)),
    alwaysStep_fixed rng _ d hq, hpreserve]

theorem mainRollStep_pres (rng : Rng) (main : List Drop) (st : SimState)
    (x : String) (h : ∀ e ∈ main, e.item ≠ x) :
    objGet (mainRollStep rng main st).loot x = objGet st.loot x := by
  simp only [mainRollStep]
  cases hs : (selectWeightedDrop main rng st.k).1 with
  | none => rfl
  | some d =>
    have hmem := selectWeightedDrop_mem main rng st.k d hs
    exact objGet_addToLoot_ne _ _ _ _ (fun hh => h d hmem hh.symm)

theorem mainPhase_pres (rng : Rng) (t : DropTable) (st : SimState) (x : String)
    (h : ∀ e ∈ t.main, e.item ≠ x) :
    objGet (mainPhase rng t st).loot x = objGet st.loot x := by
  rw [mainPhase]
  exact foldl_loot_pres _ _ _ (fun st' _ _ => mainRollStep_pres rng t.main st' x h) st

theorem sharedUniqueTrial_pres (rng : Rng) (uniques : List Drop) (c : ℚ)
    (n : ℤ) (st : SimState) (x : String) (h : ∀ e ∈ uniques, e.item ≠ x) :
    objGet (sharedUniqueTrial rng uniques c n st).loot x = objGet st.loot x := by
  simp only [sharedUniqueTrial]
  by_cases hb : rng st.k < c
  · rw [if_pos hb]
    cases hg : (if 0 ≤ (⌊rng (st.k + 1) * (uniques.length : ℚ)⌋ : ℤ) then
        uniques.get? (⌊rng (st.k + 1) * (uniques.length : ℚ)⌋ : ℤ).toNat
      else none) with
    | none => rfl
    | some ud =>
      have hmem := opt_get_mem hg
      exact objGet_addToLoot_ne _ _ _ _ (fun hh => h ud hmem hh.symm)
  · rw [if_neg hb]

theorem indivUniqueStep_pres (rng : Rng) (n : ℤ) (st : SimState) (ud : Drop)
    (x : String) (h : x ≠ ud.item) :
    objGet (indivUniqueStep rng n st ud).loot x = objGet st.loot x := by
  simp only [indivUniqueStep]
  by_cases hb : rng st.k < 1 / ud.rarity
  · rw [if_pos hb]
    exact objGet_addToLoot_ne _ _ _ _ h
  · rw [if_neg hb]

theorem indivUniquesPhase_pres (rng : Rng) (uniques : List Drop) (n : ℤ)
    (st : SimState) (x : String) (h : ∀ e ∈ uniques, e.item ≠ x) :
    objGet (indivUniquesPhase rng uniques n st).loot x = objGet st.loot x := by
  rw [indivUniquesPhase]
  exact foldl_loot_pres _ _ _
    (fun st' a ha => indivUniqueStep_pres rng n st' a x
      (fun hh => h a ha hh.symm)) st

theorem uniquesPhase_pres (rng : Rng) (t : DropTable) (n : ℤ) (st : SimState)
    (x : String) (h : ∀ e ∈ t.uniques, e.item ≠ x) :
    objGet (uniquesPhase rng t n st).loot x = objGet st.loot x := by
  rw [uniquesPhase]
  cases hc : t.uniqueTableChance with
  | none => exact indivUniquesPhase_pres rng t.uniques n st x h
  | some c =>
    show objGet ((if c ≠ 0 ∧ t.uniques ≠ [] then
        sharedUniqueTrial rng t.uniques c n st
      else indivUniquesPhase rng t.uniques n st)).loot x = objGet st.loot x
    by_cases hgate : c ≠ 0 ∧ t.uniques ≠ []
    · rw [if_pos hgate]
      exact sharedUniqueTrial_pres rng t.uniques c n st x h
    · rw [if_neg hgate]
      exact indivUniquesPhase_pres rng t.uniques n st x h

theorem tertiaryStep_pres (rng : Rng) (n : ℤ) (st : SimState) (d : Drop)
    (x : String) (h : x ≠ d.item) :
    objGet (tertiaryStep rng n st d).loot x = objGet st.loot x := by
  simp only [tertiaryStep]
  by_cases hb : rng st.k < 1 / d.rarity
  · rw [if_pos hb]
    exact objGet_addToLoot_ne _ _ _ _ h
  · rw [if_neg hb]

theorem tertiaryPhase_pres (rng : Rng) (tert : List Drop) (n : ℤ)
    (st : SimState) (x : String) (h : ∀ e ∈ tert, e.item ≠ x) :
    objGet (tertiaryPhase rng tert n st).loot x = objGet st.loot x := by
  rw [tertiaryPhase]
  exact foldl_loot_pres _ _ _
    (fun st' a ha => tertiaryStep_pres rng n st' a x
      (fun hh => h a ha hh.symm)) st

theorem simulateOneKill_fixed (rng : Rng) (t : DropTable) (n : ℤ)
    (pre post : List Drop) (d : Drop)
    (ha : t.always = pre ++ d :: post)
    (hpre : ∀ e ∈ pre, e.item ≠ d.item) (hpost : ∀ e ∈ post, e.item ≠ d.item)
    (hq : d.quantity.min = d.quantity.max)
    (hm : ∀ e ∈ t.main, e.item ≠ d.item)
    (hu : ∀ e ∈ t.uniques, e.item ≠ d.item)
    (ht : ∀ e ∈ t.tertiary, e.item ≠ d.item) (st : SimState) :
    objGet (simulateOneKill rng t n st).loot d.item =
      objGet st.loot d.item + d.quantity.min := by
  rw [simulateOneKill,
    tertiaryPhase_pres rng t.tertiary n _ d.item (fun e he hh => ht e he hh),
    uniquesPhase_pres rng t n _ d.item (fun e he hh => hu e he hh),
    mainPhase_pres rng t _ d.item (fun e he hh => hm e he hh),
    ha, alwaysPhase_fixed rng pre post d hpre hpost hq st]

theorem exact_kills_fixed (rng : Rng) (t : DropTable)
    (pre post : List Drop) (d : Drop)
    (ha : t.always = pre ++ d :: post)
    (hpre : ∀ e ∈ pre, e.item ≠ d.item) (hpost : ∀ e ∈ post, e.item ≠ d.item)
    (hq : d.quantity.min = d.quantity.max)
    (hm : ∀ e ∈ t.main, e.item ≠ d.item)
    (hu : ∀ e ∈ t.uniques, e.item ≠ d.item)
    (ht : ∀ e ∈ t.tertiary, e.item ≠ d.item) :
    ∀ (kc : ℕ) (st : SimState),
      objGet (((List.range kc).foldl
        (fun s i => simulateOneKill rng t ((i + 1 : ℕ) : ℤ) s) st)).loot d.item =
        objGet st.loot d.item + (kc : ℤ) * d.quantity.min := by
  intro kc
  induction kc with
  | zero => intro st; simp
  | succ m ih =>
    intro st
    rw [List.range_succ, List.foldl_append, List.foldl_cons, List.foldl_nil,
      simulateOneKill_fixed rng t _ pre post d ha hpre hpost hq hm hu ht, ih]
    push_cast
    ring

/-- The simulation result of the exact per-kill mode (killCount ≤ 1000). -/
theorem runSimulation_exact (f : ℚ → ℚ) (t : DropTable) (kc : ℕ) (rng : Rng)
    (h : kc ≤ 1000) :
    runSimulation f t kc rng = runExactSimulation t kc rng := by
  rw [runSimulation, if_neg (by omega)]

/-- The general exact-mode lemma behind C8: an `always` entry with a
degenerate range, whose item occurs nowhere else in the table, contributes
exactly `quantity.min` per kill to that item's loot total, for every random
oracle. -/
theorem runSimulation_always_exact (t : DropTable) (pre post : List Drop)
    (d : Drop) (kc : ℕ) (rng : Rng) (f : ℚ → ℚ) (hkc : kc ≤ 1000)
    (ha : t.always = pre ++ d :: post)
    (hpre : ∀ e ∈ pre, e.item ≠ d.item) (hpost : ∀ e ∈ post, e.item ≠ d.item)
    (hq : d.quantity.min = d.quantity.max)
    (hm : ∀ e ∈ t.main, e.item ≠ d.item)
    (hu : ∀ e ∈ t.uniques, e.item ≠ d.item)
    (ht : ∀ e ∈ t.tertiary, e.item ≠ d.item) :
    objGet (runSimulation f t kc rng).loot d.item = (kc : ℤ) * d.quantity.min := by
  rw [runSimulation_exact f t kc rng hkc, runExactSimulation]
  show objGet (((List.range kc).foldl
      (fun s i => simulateOneKill rng t ((i + 1 : ℕ) : ℤ) s)
      ⟨[], [], 0⟩)).loot d.item = (kc : ℤ) * d.quantity.min
  rw [exact_kills_fixed rng t pre post d ha hpre hpost hq hm hu ht kc ⟨[], [], 0⟩]
  simp [objGet]

/-- The one-entry `always` table of the claim's concrete scenario. -/
def gemTable : DropTable :=
  ⟨"Test", [⟨"Gem", ⟨3, 3⟩, 1, "Always"⟩], [], [], [], 1, none⟩

/-- C8: in exact mode (killCount ≤ 1000), every `always` entry with a fixed
quantity `{q,q}` whose item appears nowhere else in the table contributes
exactly `q × killCount` to its item's loot total, with no variance, for every
random oracle; in particular one kill of a table whose single `always` entry
has quantity `{3,3}` yields loot 3, and one simulated Cerberus kill always
yields exactly one `Infernal ashes`. -/
theorem c8_always_exact :
    (∀ (t : DropTable) (pre post : List Drop) (d : Drop) (kc : ℕ) (rng : Rng)
      (f : ℚ → ℚ), kc ≤ 1000 →
      t.always = pre ++ d :: post →
      (∀ e ∈ pre, e.item ≠ d.item) → (∀ e ∈ post, e.item ≠ d.item) →
      d.quantity.min = d.quantity.max →
      (∀ e ∈ t.main, e.item ≠ d.item) →
      (∀ e ∈ t.uniques, e.item ≠ d.item) →
      (∀ e ∈ t.tertiary, e.item ≠ d.item) →
      objGet (runSimulation f t kc rng).loot d.item = (kc : ℤ) * d.quantity.min) ∧
    (∀ (rng : Rng) (f : ℚ → ℚ),
      objGet (runSimulation f gemTable 1 rng).loot "Gem" = 3) ∧
    (∀ (rng : Rng) (f : ℚ → ℚ),
      objGet (runSimulation f getCerberusHardcodedDrops 1 rng).loot
        "Infernal ashes" = 1) := by
  refine ⟨fun t pre post d kc rng f hkc ha hpre hpost hq hm hu ht =>
    runSimulation_always_exact t pre post d kc rng f hkc ha hpre hpost hq hm hu ht,
    ?_, ?_⟩
  · intro rng f
    have h := runSimulation_always_exact gemTable [] []
      ⟨"Gem", ⟨3, 3⟩, 1, "Always"⟩ 1 rng f (by omega) rfl (by simp) (by simp)
      rfl (by simp [gemTable]) (by simp [gemTable]) (by simp [gemTable])
    simpa using h
  · intro rng f
    have h := runSimulation_always_exact getCerberusHardcodedDrops [] []
      ⟨"Infernal ashes", ⟨1, 1⟩, 1, "Always"⟩ 1 rng f (by omega) rfl
      (by simp) (by simp) rfl (by decide) (by decide) (by decide)
    simpa using h

/-- Witness for C8's general part at the concrete `gemTable`. -/
theorem c8_witness :
    objGet (runSimulation idSqrt gemTable 1 rngZero).loot
      (Drop.item ⟨"Gem", ⟨3, 3⟩, 1, "Always"⟩) =
      ((1 : ℕ) : ℤ) * (Quantity.min ⟨3, 3⟩) :=
  c8_always_exact.1 gemTable [] [] ⟨"Gem", ⟨3, 3⟩, 1, "Always"⟩ 1 rngZero
    idSqrt (by omega) rfl (by simp) (by simp) rfl (by simp [gemTable])
    (by simp [gemTable]) (by simp [gemTable])

/-! ## C9: approximated-mode always drops -/

/-- Generic preservation of one loot key across a left fold over the loot
object alone. -/
theorem foldl_obj_pres {α} (l : List α) (g : Loot → α → Loot) (x : String)
    (h : ∀ o a, a ∈ l → objGet (g o a) x = objGet o x) (o : Loot) :
    objGet (l.foldl g o) x = objGet o x := by
  induction l generalizing o with
  | nil => rfl
  | cons a t ih =>
    rw [List.foldl_cons, ih (fun o' b hb => h o' b (List.mem_cons_of_mem a hb))]
    exact h o a (List.mem_cons_self a t)

theorem optAlwaysPhase_fixed (pre post : List Drop) (d : Drop) (kc : ℕ)
    (hpre : ∀ e ∈ pre, e.item ≠ d.item) (hpost : ∀ e ∈ post, e.item ≠ d.item)
    (st : SimState) :
    objGet (optAlwaysPhase (pre ++ d :: post) kc st).loot d.item =
      objGet st.loot d.item + jsRound (avgQuantity d.quantity * (kc : ℚ)) := by
  simp only [optAlwaysPhase]
  rw [List.foldl_append, List.foldl_cons]
  rw [foldl_obj_pres post _ d.item
    (fun o a ha => objGet_addToLoot_ne _ _ _ _ (fun hh => hpost a ha hh.symm))]
  rw [objGet_addToLoot_same]
  rw [foldl_obj_pres pre _ d.item
    (fun o a ha => objGet_addToLoot_ne _ _ _ _ (fun hh => hpre a ha hh.symm))]

theorem optMainStep_pres (f : ℚ → ℚ) (rng : Rng) (tr tw : ℚ) (st : SimState)
    (dw : Drop × ℚ) (x : String) (h : x ≠ dw.1.item) :
    objGet (optMainStep f rng tr tw st dw).loot x = objGet st.loot x := by
  simp only [optMainStep]
  split
  · exact objGet_addToLoot_ne _ _ _ _ h
  · rfl

theorem optMainPhase_pres (f : ℚ → ℚ) (rng : Rng) (t : DropTable) (kc : ℕ)
    (st : SimState) (x : String) (h : ∀ e ∈ t.main, e.item ≠ x) :
    objGet (optMainPhase f rng t kc st).loot x = objGet st.loot x := by
  simp only [optMainPhase]
  split
  · refine foldl_loot_pres _ _ _ ?_ st
    intro st' a ha
    rcases List.mem_map.mp ha with ⟨e, he, rfl⟩
    exact optMainStep_pres f rng _ _ st' _ x (fun hh => h e he hh.symm)
  · rfl

theorem optSharedUniquesPhase_pres (rng : Rng) (uniques : List Drop) (c : ℚ)
    (kc : ℕ) (st : SimState) (x : String) (h : ∀ e ∈ uniques, e.item ≠ x) :
    objGet (optSharedUniquesPhase rng uniques c kc st).loot x =
      objGet st.loot x := by
  rw [optSharedUniquesPhase]
  exact foldl_loot_pres _ _ _
    (fun st' _ _ => sharedUniqueTrial_pres rng uniques c _ st' x h) st

theorem optIndivUniqueEmit_pres (rng : Rng) (ud : Drop) (kc : ℕ)
    (st : SimState) (x : String) (h : x ≠ ud.item) :
    objGet (optIndivUniqueEmit rng ud kc st).loot x = objGet st.loot x := by
  simp only [optIndivUniqueEmit]
  exact objGet_addToLoot_ne _ _ _ _ h

theorem optIndivUniqueStep_pres (f : ℚ → ℚ) (rng : Rng) (kc : ℕ)
    (st : SimState) (ud : Drop) (x : String) (h : x ≠ ud.item) :
    objGet (optIndivUniqueStep f rng kc st ud).loot x = objGet st.loot x := by
  simp only [optIndivUniqueStep]
  rw [foldl_loot_pres _ _ _
    (fun st' _ _ => optIndivUniqueEmit_pres rng ud kc st' x h)]

theorem optIndivUniquesPhase_pres (f : ℚ → ℚ) (rng : Rng)
    (uniques : List Drop) (kc : ℕ) (st : SimState) (x : String)
    (h : ∀ e ∈ uniques, e.item ≠ x) :
    objGet (optIndivUniquesPhase f rng uniques kc st).loot x =
      objGet st.loot x := by
  rw [optIndivUniquesPhase]
  exact foldl_loot_pres _ _ _
    (fun st' a ha => optIndivUniqueStep_pres f rng kc st' a x
      (fun hh => h a ha hh.symm)) st

theorem optUniquesPhase_pres (f : ℚ → ℚ) (rng : Rng) (t : DropTable) (kc : ℕ)
    (st : SimState) (x : String) (h : ∀ e ∈ t.uniques, e.item ≠ x) :
    objGet (optUniquesPhase f rng t kc st).loot x = objGet st.loot x := by
  rw [optUniquesPhase]
  cases hc : t.uniqueTableChance with
  | none => exact optIndivUniquesPhase_pres f rng t.uniques kc st x h
  | some c =>
    show objGet ((if c ≠ 0 ∧ t.uniques ≠ [] then
        optSharedUniquesPhase rng t.uniques c kc st
      else optIndivUniquesPhase f rng t.uniques kc st)).loot x = objGet st.loot x
    by_cases hgate : c ≠ 0 ∧ t.uniques ≠ []
    · rw [if_pos hgate]
      exact optSharedUniquesPhase_pres rng t.uniques c kc st x h
    · rw [if_neg hgate]
      exact optIndivUniquesPhase_pres f rng t.uniques kc st x h

theorem optTertiaryStep_pres (f : ℚ → ℚ) (rng : Rng) (kc : ℕ)
    (st : SimState) (d : Drop) (x : String) (h : x ≠ d.item) :
    objGet (optTertiaryStep f rng kc st d).loot x = objGet st.loot x := by
  simp only [optTertiaryStep]
  split
  · split
    · refine Eq.trans (foldl_loot_pres _ _ _ ?_ _) (objGet_addToLoot_ne _ _ _ _ h)
      intro s a ha
      rfl
    · exact objGet_addToLoot_ne _ _ _ _ h
  · rfl

theorem optTertiaryPhase_pres (f : ℚ → ℚ) (rng : Rng) (tert : List Drop)
    (kc : ℕ) (st : SimState) (x : String) (h : ∀ e ∈ tert, e.item ≠ x) :
    objGet (optTertiaryPhase f rng tert kc st).loot x = objGet st.loot x := by
  rw [optTertiaryPhase]
  exact foldl_loot_pres _ _ _
    (fun st' a ha => optTertiaryStep_pres f rng kc st' a x
      (fun hh => h a ha hh.symm)) st

/-- C9: in approximated mode (`killCount > 1000`), an `always` entry whose
item appears nowhere else in the table contributes the deterministic total
`Math.round(((min + max)/2) × killCount)` to the loot, with no random
sampling involved: the result does not depend on the random oracle (nor on
`Math.sqrt`), so two runs over the same table and kill count produce
identical always-drop loot totals. -/
theorem c9_optimized_always (t : DropTable) (pre post : List Drop) (d : Drop)
    (kc : ℕ) (rng : Rng) (f : ℚ → ℚ) (hkc : 1000 < kc)
    (ha : t.always = pre ++ d :: post)
    (hpre : ∀ e ∈ pre, e.item ≠ d.item) (hpost : ∀ e ∈ post, e.item ≠ d.item)
    (hm : ∀ e ∈ t.main, e.item ≠ d.item)
    (hu : ∀ e ∈ t.uniques, e.item ≠ d.item)
    (ht : ∀ e ∈ t.tertiary, e.item ≠ d.item) :
    objGet (runSimulation f t kc rng).loot d.item =
      jsRound (avgQuantity d.quantity * (kc : ℚ)) := by
  rw [runSimulation, if_pos hkc]
  show objGet (optFinalState f rng t kc).loot d.item = _
  rw [optFinalState,
    optTertiaryPhase_pres f rng t.tertiary kc _ d.item ht,
    optUniquesPhase_pres f rng t kc _ d.item hu,
    optMainPhase_pres f rng t kc _ d.item hm,
    ha, optAlwaysPhase_fixed pre post d kc hpre hpost ⟨[], [], 0⟩]
  simp [objGet]

/-- A one-entry `always` table with a non-degenerate range, used as the C9
witness. -/
def boneTable : DropTable :=
  ⟨"T", [⟨"Bone", ⟨2, 3⟩, 1, "Always"⟩], [], [], [], 1, none⟩

/-- Witness for C9 at `boneTable` with `killCount = 1001`. -/
theorem c9_witness :
    objGet (runSimulation idSqrt boneTable 1001 rngZero).loot
      (Drop.item ⟨"Bone", ⟨2, 3⟩, 1, "Always"⟩) =
      jsRound (avgQuantity ⟨2, 3⟩ * ((1001 : ℕ) : ℚ)) :=
  c9_optimized_always boneTable [] [] ⟨"Bone", ⟨2, 3⟩, 1, "Always"⟩ 1001
    rngZero idSqrt (by omega) rfl (by simp) (by simp) (by simp [boneTable])
    (by simp [boneTable]) (by simp [boneTable])
